import Mathlib

/-!
# Level filter of `logutils` (level.go)

A shallow embedding of `LevelFilter` with its methods `Check`, `Write`,
`SetMinLevel` and `init`, and the properties of the filter proved over it.

Conventions of the embedding:

* a Go `[]byte` and a Go `string` are both a list of bytes;
* a Go `int` is an `Int` (no arithmetic of the filter can overflow: every
  value is bounded by the length of a slice);
* a method with a pointer receiver takes the filter state and returns the new
  state together with its results;
* a run-time panic (slice bounds out of range, index out of range) is the
  result `none`;
* `map[LogLevel]struct{}` is the list of its keys, a lookup is list
  membership, and the nil map is the empty list (a lookup in a nil map finds
  nothing);
* `sync.Once` is a flag: `once.Do(g)` runs `g` when the flag is unset and sets
  it.
-/

namespace Logutils

/-- Byte sequences: Go `[]byte` and `string`. -/
abbrev Bytes := List UInt8

/-- `type LogLevel string`. -/
abbrev LogLevel := Bytes

/-- The `error` interface; `nil` is `none`. -/
abbrev Error := String

/-- The type `color.Attribute` is an integer SGR code. -/
abbrev Attribute := Int

/-- Modelled from the spec: the SGR attribute constants of the external package
`github.com/fatih/color`, which is not under src/. `Reset` is the default
rendering; codes 31 and 33 are the ones the expected string of
`TestLevelFilter` shows for the last and the last but one level. -/
def Reset : Attribute := 0

/-- Modelled from the spec: SGR code of `color.FgBlack` (see `Reset`). -/
def FgBlack : Attribute := 30

/-- Modelled from the spec: SGR code of `color.FgRed` (see `Reset`). -/
def FgRed : Attribute := 31

/-- Modelled from the spec: SGR code of `color.FgGreen` (see `Reset`). -/
def FgGreen : Attribute := 32

/-- Modelled from the spec: SGR code of `color.FgYellow` (see `Reset`). -/
def FgYellow : Attribute := 33

/-- Modelled from the spec: SGR code of `color.FgBlue` (see `Reset`). -/
def FgBlue : Attribute := 34

/-- The palette:
`var colorlist = []color.Attribute{color.FgRed, color.FgYellow, color.FgGreen, color.FgBlue}`. -/
def colorlist : List Attribute := [FgRed, FgYellow, FgGreen, FgBlue]

/-- The byte `'['`. -/
def lbracket : UInt8 := 91

/-- The byte `']'`. -/
def rbracket : UInt8 := 93

/-- The bytes of an ASCII string literal. -/
def ascii (s : String) : Bytes := s.toList.map fun c => c.toNat.toUInt8

/-- The standard function `bytes.IndexByte(b, c)`: the index of the first instance of `c`
in `b`, or `-1` if `c` is not present in `b`. -/
def IndexByte : Bytes → UInt8 → Int
  | [], _ => -1
  | h :: t, c =>
    if h = c then 0
    else
      let r := IndexByte t c
      if r < 0 then -1 else r + 1

/-- The slice expression `b[lo:hi]`; it panics unless `0 ≤ lo ≤ hi ≤ len(b)`. -/
def slice (b : Bytes) (lo hi : Int) : Option Bytes :=
  if 0 ≤ lo ∧ lo ≤ hi ∧ hi ≤ (b.length : Int) then
    some ((b.drop lo.toNat).take (hi - lo).toNat)
  else none

/-- The index expression `l[i]`; it panics unless `0 ≤ i < len(l)`. -/
def index (l : List Attribute) (i : Int) : Option Attribute :=
  if 0 ≤ i ∧ i < (l.length : Int) then l.get? i.toNat else none

/-- The interface `io.Writer` for a sink whose state has type `σ`: `Write` takes the
sink and the bytes and returns the sink afterwards with the pair `(n, err)`. -/
class IOWriter (σ : Type) where
  /-- The method `Write(p []byte) (n int, err error)`. -/
  Write : σ → Bytes → σ × (Int × Option Error)

/-- The sink of the tests, `bytes.Buffer`: an append-only byte sequence. -/
structure Buffer where
  /-- Everything written so far, `buf.String()`. -/
  data : Bytes
deriving DecidableEq, Repr

/-- The method `Write` of `bytes.Buffer` appends `p` and returns `(len(p), nil)`. -/
instance : IOWriter Buffer where
  Write b p := (⟨b.data ++ p⟩, ((p.length : Int), none))

/-- The escape sequence `ESC [ <code> m` that selects the attribute `a`. -/
def sgr (a : Attribute) : Bytes := [27, lbracket] ++ ascii (toString a) ++ [109]

/-- Modelled from the spec: the rendering of the external package
`github.com/fatih/color`, which is not under src/: "renders the input bytes wrapped in
the computed color's terminal escape sequence (default color renders as no escape
wrapping)". The default colour `Reset` leaves the text as it is; any other attribute
wraps the text in its escape sequence and the reset sequence `ESC[0m`, the form that the
expected string of `TestLevelFilter` has for the codes 31 and 33. -/
def render (cl : Attribute) (s : Bytes) : Bytes :=
  if cl = Reset then s else sgr cl ++ s ++ sgr Reset

/-- Modelled from the spec: the call `color.New(cl).Fprint(w, s)` of the external
package `github.com/fatih/color`, which is not under src/: the rendered text is
forwarded to the sink `w` and the sink's own `(count, error)` is returned. -/
def Fprint {σ : Type} [IOWriter σ] (cl : Attribute) (w : σ) (s : Bytes) :
    σ × (Int × Option Error) :=
  IOWriter.Write w (render cl s)

/-- The struct `LevelFilter`. The field `Writer` holds the state of the sink. -/
structure LevelFilter (σ : Type) where
  /-- The list of log levels, in increasing order of severity. -/
  Levels : List LogLevel
  /-- The minimum level allowed through. -/
  MinLevel : LogLevel
  /-- The underlying `io.Writer`. -/
  Writer : σ
  /-- The keys of `badLevels map[LogLevel]struct{}`; the nil map has no key. -/
  badLevels : List LogLevel
  /-- Whether `once sync.Once` has run its function. -/
  once : Bool

/-- The composite literal `&LevelFilter{Levels: l, MinLevel: m, Writer: w}`: `badLevels`
is the nil map and `once` has not run. -/
def newLevelFilter {σ : Type} (l : List LogLevel) (m : LogLevel) (w : σ) : LevelFilter σ :=
  { Levels := l, MinLevel := m, Writer := w, badLevels := [], once := false }

/-- The loop of `init` over the remaining levels, `bad` being the map built so far:
`for _, level := range f.Levels { if level == f.MinLevel { break }; badLevels[level] = struct{}{} }`. -/
def initLoop (min : LogLevel) : List LogLevel → List LogLevel → List LogLevel
  | [], bad => bad
  | level :: rest, bad =>
    if level = min then bad else initLoop min rest (List.insert level bad)

/-- The method `init`: builds the map of the levels below `MinLevel` and stores it. -/
def LevelFilter.init {σ : Type} (f : LevelFilter σ) : LevelFilter σ :=
  { f with badLevels := initLoop f.MinLevel f.Levels [] }

/-- The statement `f.once.Do(f.init)`. -/
def LevelFilter.onceDoInit {σ : Type} (f : LevelFilter σ) : LevelFilter σ :=
  if f.once then f else { f.init with once := true }

/-- Lines 43 to 50 of `Check`, the value of `level` after them:
`x := bytes.IndexByte(line, '[')`, and when `x >= 0`, `y := bytes.IndexByte(line[x:], ']')`,
and when `y >= 0`, `level = LogLevel(line[x+1 : x+y])`; otherwise `level` keeps its zero
value, the empty string. -/
def checkLevel (line : Bytes) : Option LogLevel :=
  let x := IndexByte line lbracket
  if x ≥ 0 then
    match slice line x line.length with
    | none => none
    | some rest =>
      let y := IndexByte rest rbracket
      if y ≥ 0 then slice line (x + 1) (x + y) else some []
  else some []

/-- The colour loop of `Check` over the remaining levels, `i` being the index of the
first of them; `cl` is `color.Reset` when the loop starts and at a `break`:
`for i, v := range f.Levels { if v == level { gap := len(f.Levels) - i - 1;
if gap > len(colorlist) { break }; cl = colorlist[gap]; break } }`. -/
def colorLoop (levels : List LogLevel) (level : LogLevel) : List LogLevel → Int → Option Attribute
  | [], _ => some Reset
  | v :: rest, i =>
    if v = level then
      let gap : Int := (levels.length : Int) - i - 1
      if gap > (colorlist.length : Int) then some Reset else index colorlist gap
    else colorLoop levels level rest (i + 1)

/-- The method `Check`: the filter after the call with the pair `(colour, allowed)`, or
`none` when the call panics. -/
def LevelFilter.Check {σ : Type} (f : LevelFilter σ) (line : Bytes) :
    Option (LevelFilter σ × (Attribute × Bool)) :=
  let f := f.onceDoInit
  match checkLevel line with
  | none => none
  | some level =>
    if level ∈ f.badLevels then some (f, (FgBlack, false))
    else
      match colorLoop f.Levels level f.Levels 0 with
      | none => none
      | some cl => some (f, (cl, true))

/-- The method `Write`: the filter after the call with the pair `(n, err)`, or `none`
when the call panics. -/
def LevelFilter.Write {σ : Type} [IOWriter σ] (f : LevelFilter σ) (p : Bytes) :
    Option (LevelFilter σ × (Int × Option Error)) :=
  match f.Check p with
  | none => none
  | some (f, (cl, ok)) =>
    if ok = false then some (f, ((p.length : Int), none))
    else
      let r := Fprint cl f.Writer p
      some ({ f with Writer := r.1 }, r.2)

/-- The method `SetMinLevel`. -/
def LevelFilter.SetMinLevel {σ : Type} (f : LevelFilter σ) (min : LogLevel) : LevelFilter σ :=
  LevelFilter.init { f with MinLevel := min }

/-- A call of one of the three public methods of a filter. -/
inductive Call where
  /-- The call `f.Check(line)`. -/
  | check (line : Bytes)
  /-- The call `f.Write(p)`. -/
  | write (p : Bytes)
  /-- The call `f.SetMinLevel(min)`. -/
  | setMinLevel (min : LogLevel)

/-- The filter after one call, its results dropped; `none` when the call panics. -/
def LevelFilter.call {σ : Type} [IOWriter σ] (f : LevelFilter σ) : Call → Option (LevelFilter σ)
  | .check line => (f.Check line).map Prod.fst
  | .write p => (f.Write p).map Prod.fst
  | .setMinLevel min => some (f.SetMinLevel min)

/-- The filter after a sequence of calls made one after another. -/
def LevelFilter.run {σ : Type} [IOWriter σ] (f : LevelFilter σ) : List Call → Option (LevelFilter σ)
  | [] => some f
  | c :: cs =>
    match f.call c with
    | none => none
    | some g => g.run cs

/-- The index of the first entry of `l` equal to `x`, the position of `x` in the list;
it is `len(l)` when `x` does not occur in `l`. -/
def firstIndex (l : List LogLevel) (x : LogLevel) : Nat :=
  match l with
  | [] => 0
  | v :: rest => if v = x then 0 else firstIndex rest x + 1

/-- The uniform expectation for the sink after the lines were written to the filter `f`
one after another: for each line that `Check` allows, in call order, the bytes
`ESC [ <code> m`, the line and `ESC [ 0 m`, with the code of the colour that `Check`
returns for the line, the default colour included, and nothing for the other lines. -/
def expectedOutput {σ : Type} (f : LevelFilter σ) : List Bytes → Bytes
  | [] => []
  | line :: rest =>
    (match (f.Check line).map Prod.snd with
      | some (cl, true) => [27, 91] ++ ascii (toString cl) ++ [109] ++ line ++ [27, 91, 48, 109]
      | _ => []) ++ expectedOutput f rest

/-- What the sink receives for lines written to the filter `f` one after another: for
each line that `Check` allows, in call order, the line itself when the colour that `Check`
returns is the default colour `Reset`, and otherwise the bytes `ESC [ <code> m`, the line
and `ESC [ 0 m` with the code of that colour; nothing for the other lines. -/
def forwardedOutput {σ : Type} (f : LevelFilter σ) : List Bytes → Bytes
  | [] => []
  | line :: rest =>
    (match (f.Check line).map Prod.snd with
      | some (cl, true) =>
        if cl = Reset then line
        else [27, 91] ++ ascii (toString cl) ++ [109] ++ line ++ [27, 91, 48, 109]
      | _ => []) ++ forwardedOutput f rest

/-- The filter of `TestLevelFilter`: levels DEBUG, WARN, ERROR, threshold WARN, over an
empty `bytes.Buffer`. -/
def testFilter : LevelFilter Buffer :=
  newLevelFilter [ascii "DEBUG", ascii "WARN", ascii "ERROR"] (ascii "WARN") (Buffer.mk [])

/-- The four lines that the logger of `TestLevelFilter` passes to the filter, each ended
by the newline that the logger adds. -/
def testLines : List Bytes :=
  [ascii "[WARN] foo\n", ascii "[ERROR] bar\n", ascii "[DEBUG] baz\n", ascii "[WARN] buzz\n"]

/-- The string `expected` of `TestLevelFilter`. -/
def testExpected : Bytes :=
  [27] ++ ascii "[33m[WARN] foo\n" ++ [27] ++ ascii "[0m" ++
  [27] ++ ascii "[31m[ERROR] bar\n" ++ [27] ++ ascii "[0m" ++
  [27] ++ ascii "[33m[WARN] buzz\n" ++ [27] ++ ascii "[0m"

/-- The filter of `TestLevelFilter_SetMinLevel`: levels DEBUG, WARN, ERROR, threshold
ERROR, over an empty buffer. -/
def testFilterError : LevelFilter Buffer :=
  newLevelFilter [ascii "DEBUG", ascii "WARN", ascii "ERROR"] (ascii "ERROR") (Buffer.mk [])

/-- A sink that is closed: every `Write` takes nothing and returns `(0, err)` with a
non-nil error. -/
structure ClosedWriter where
  /-- The number of calls of `Write` so far. -/
  calls : Nat
deriving DecidableEq, Repr

/-- The method `Write` of the closed sink. -/
instance : IOWriter ClosedWriter where
  Write c _ := (⟨c.calls + 1⟩, (0, some "io: read/write on closed pipe"))

/-- The value of the field `MinLevel` after a sequence of calls on a filter whose
`MinLevel` was `m`: the argument of the last `SetMinLevel` among them, `m` when there
is none. -/
def currentMinLevel (m : LogLevel) : List Call → LogLevel
  | [] => m
  | .setMinLevel min :: cs => currentMinLevel min cs
  | _ :: cs => currentMinLevel m cs

/-! ## Properties -/

theorem IndexByte_of_not_mem (b : Bytes) (c : UInt8) (h : c ∉ b) : IndexByte b c = -1 := by
  induction b with
  | nil => rfl
  | cons a t ih =>
    have h1 : a ≠ c := fun e => h (by simp [e])
    have h2 : c ∉ t := fun e => h (by simp [e])
    simp [IndexByte, h1, ih h2]

theorem IndexByte_append_cons (pre rest : Bytes) (c : UInt8) (h : c ∉ pre) :
    IndexByte (pre ++ c :: rest) c = (pre.length : Int) := by
  induction pre with
  | nil => simp [IndexByte]
  | cons a t ih =>
    have h1 : a ≠ c := fun e => h (by simp [e])
    have h2 : c ∉ t := fun e => h (by simp [e])
    have h3 : ¬ ((t.length : Int) < 0) := by omega
    simp [IndexByte, h1, ih h2, h3]

theorem slice_append_right (pre rest : Bytes) :
    slice (pre ++ rest) (pre.length : Int) ((pre ++ rest).length : Int) = some rest := by
  have h : (pre.length : Int) ≤ ((pre ++ rest).length : Int) := by
    simp
  simp only [slice]
  rw [if_pos ⟨by omega, h, le_refl _⟩]
  simp

theorem slice_middle (pre mid post : Bytes) (a : UInt8) :
    slice (pre ++ a :: (mid ++ post)) ((pre.length : Int) + 1)
      ((pre.length : Int) + ((mid.length : Int) + 1)) = some mid := by
  have hlen : ((pre ++ a :: (mid ++ post)).length : Int)
      = (pre.length : Int) + 1 + (mid.length : Int) + (post.length : Int) := by
    simp; omega
  simp only [slice]
  rw [if_pos ⟨by omega, by omega, by rw [hlen]; omega⟩]
  have e1 : ((pre.length : Int) + 1).toNat = pre.length + 1 := by omega
  have e2 : ((pre.length : Int) + ((mid.length : Int) + 1) - ((pre.length : Int) + 1)).toNat
      = mid.length := by omega
  rw [e1, e2]
  have : (pre ++ a :: (mid ++ post)).drop (pre.length + 1) = mid ++ post := by
    rw [show pre ++ a :: (mid ++ post) = (pre ++ [a]) ++ (mid ++ post) by simp]
    rw [List.drop_append_of_le_length (by simp)]
    simp
  rw [this]
  simp

theorem checkLevel_tagged (pre tag post : Bytes) (hpre : lbracket ∉ pre)
    (htag : rbracket ∉ tag) :
    checkLevel (pre ++ lbracket :: (tag ++ rbracket :: post)) = some tag := by
  have hx := IndexByte_append_cons pre (tag ++ rbracket :: post) lbracket hpre
  have hy : IndexByte (lbracket :: (tag ++ rbracket :: post)) rbracket
      = (tag.length : Int) + 1 := by
    have h0 := IndexByte_append_cons tag post rbracket htag
    have h1 : lbracket ≠ rbracket := by decide
    have h3 : ¬ ((tag.length : Int) < 0) := by omega
    simp [IndexByte, h1, h0, h3]
  simp only [checkLevel]
  rw [hx, if_pos (by omega), slice_append_right]
  simp only []
  rw [hy, if_pos (by omega)]
  exact slice_middle pre tag (rbracket :: post) lbracket

theorem checkLevel_untagged (line : Bytes)
    (h : lbracket ∉ line ∨
      ∃ pre rest, line = pre ++ lbracket :: rest ∧ lbracket ∉ pre ∧ rbracket ∉ rest) :
    checkLevel line = some [] := by
  rcases h with h | ⟨pre, rest, rfl, hpre, hrest⟩
  · simp [checkLevel, IndexByte_of_not_mem line lbracket h]
  · have hx := IndexByte_append_cons pre rest lbracket hpre
    have hy : IndexByte (lbracket :: rest) rbracket = -1 := by
      apply IndexByte_of_not_mem
      have h1 : rbracket ≠ lbracket := by decide
      simp [h1, hrest]
    simp only [checkLevel]
    rw [hx, if_pos (by omega), slice_append_right]
    simp only []
    rw [hy, if_neg (by omega)]

theorem firstIndex_le_length (l : List LogLevel) (x : LogLevel) : firstIndex l x ≤ l.length := by
  induction l with
  | nil => simp [firstIndex]
  | cons a t ih =>
    by_cases h : a = x <;> simp [firstIndex, h]
    omega

theorem firstIndex_lt_length_iff (l : List LogLevel) (x : LogLevel) :
    firstIndex l x < l.length ↔ x ∈ l := by
  induction l with
  | nil => simp [firstIndex]
  | cons a t ih =>
    by_cases h : a = x
    · simp [firstIndex, h]
    · have h' : x ≠ a := fun e => h e.symm
      simp [firstIndex, h, h', ih]

theorem mem_initLoop (min : LogLevel) (l bad : List LogLevel) (x : LogLevel) :
    x ∈ initLoop min l bad ↔ x ∈ bad ∨ x ∈ l.takeWhile (fun v => decide (v ≠ min)) := by
  induction l generalizing bad with
  | nil => simp [initLoop]
  | cons a t ih =>
    by_cases h : a = min
    · simp [initLoop, h, List.takeWhile]
    · rw [initLoop, if_neg h, ih, List.takeWhile_cons]
      simp only [ne_eq, h, not_false_eq_true, decide_True, if_true, List.mem_insert_iff,
        List.mem_cons]
      tauto

theorem mem_takeWhile_ne_iff (min : LogLevel) (l : List LogLevel) (x : LogLevel) :
    x ∈ l.takeWhile (fun v => decide (v ≠ min)) ↔
      ∃ j, j < firstIndex l min ∧ l[j]? = some x := by
  induction l with
  | nil => simp [firstIndex]
  | cons a t ih =>
    by_cases h : a = min
    · subst h
      simp [List.takeWhile_cons, firstIndex]
    · rw [List.takeWhile_cons]
      simp only [ne_eq, h, not_false_eq_true, decide_True, if_true, List.mem_cons, ih,
        firstIndex, if_false]
      constructor
      · rintro (rfl | ⟨j, hj, hx⟩)
        · exact ⟨0, by omega, by simp⟩
        · exact ⟨j + 1, by omega, by simpa using hx⟩
      · rintro ⟨j, hj, hx⟩
        cases j with
        | zero => left; simpa using hx.symm
        | succ k => right; exact ⟨k, by omega, by simpa using hx⟩

theorem mem_takeWhile_ne_iff_firstIndex (min : LogLevel) (l : List LogLevel) (x : LogLevel) :
    x ∈ l.takeWhile (fun v => decide (v ≠ min)) ↔ firstIndex l x < firstIndex l min := by
  induction l with
  | nil => simp [firstIndex]
  | cons a t ih =>
    by_cases h : a = min
    · subst h
      simp [List.takeWhile_cons, firstIndex]
    · rw [List.takeWhile_cons]
      by_cases hx : a = x
      · subst hx
        simp [h, firstIndex]
      · have hx' : x ≠ a := fun e => hx e.symm
        simp only [ne_eq, h, not_false_eq_true, decide_True, if_true, List.mem_cons, hx',
          false_or, ih, firstIndex, hx, if_false]
        omega

theorem colorLoop_spec (levels : List LogLevel) (level : LogLevel) (rest : List LogLevel)
    (i : Int) :
    colorLoop levels level rest i =
      if level ∈ rest then
        if (levels.length : Int) - (i + (firstIndex rest level : Int)) - 1 > 4 then some Reset
        else index colorlist ((levels.length : Int) - (i + (firstIndex rest level : Int)) - 1)
      else some Reset := by
  induction rest generalizing i with
  | nil => simp [colorLoop]
  | cons a t ih =>
    by_cases h : a = level
    · subst h
      simp [colorLoop, colorlist, firstIndex]
    · have h' : level ≠ a := fun e => h e.symm
      have e : i + 1 + (firstIndex t level : Int) = i + ((firstIndex t level + 1 : Nat) : Int) := by
        push_cast; ring
      simp only [colorLoop, if_neg h, ih, List.mem_cons, h', false_or, firstIndex, e]

theorem check_eq {σ : Type} (f : LevelFilter σ) (line : Bytes) (level : LogLevel)
    (h : checkLevel line = some level) :
    (f.Check line).map Prod.snd =
      if level ∈ f.onceDoInit.badLevels then some (FgBlack, false)
      else (colorLoop f.Levels level f.Levels 0).map fun cl => (cl, true) := by
  have hl : f.onceDoInit.Levels = f.Levels := by
    unfold LevelFilter.onceDoInit LevelFilter.init
    split <;> rfl
  simp only [LevelFilter.Check, h, hl]
  split
  · rfl
  · cases colorLoop f.Levels level f.Levels 0 <;> rfl

theorem badLevels_new {σ : Type} (l : List LogLevel) (m : LogLevel) (w : σ) :
    (newLevelFilter l m w).onceDoInit.badLevels = initLoop m l [] := by
  simp [newLevelFilter, LevelFilter.onceDoInit, LevelFilter.init]

theorem onceDoInit_idem {σ : Type} (f : LevelFilter σ) :
    f.onceDoInit.onceDoInit = f.onceDoInit := by
  unfold LevelFilter.onceDoInit
  by_cases h : f.once = true <;> simp [h]

theorem firstIndex_eq_length (l : List LogLevel) (x : LogLevel) (h : x ∉ l) :
    firstIndex l x = l.length := by
  have h1 := firstIndex_le_length l x
  have h2 := (firstIndex_lt_length_iff l x).not.mpr h
  omega

theorem check_congr {σ τ : Type} (f : LevelFilter σ) (g : LevelFilter τ) (line : Bytes)
    (hl : f.Levels = g.Levels) (hb : f.onceDoInit.badLevels = g.onceDoInit.badLevels) :
    (f.Check line).map Prod.snd = (g.Check line).map Prod.snd := by
  cases h : checkLevel line with
  | none => simp [LevelFilter.Check, h]
  | some level => rw [check_eq f line level h, check_eq g line level h, hl, hb]

theorem check_onceDoInit {σ : Type} (f : LevelFilter σ) (line : Bytes) :
    (f.onceDoInit.Check line).map Prod.snd = (f.Check line).map Prod.snd := by
  apply check_congr
  · unfold LevelFilter.onceDoInit LevelFilter.init
    split <;> rfl
  · rw [onceDoInit_idem]

theorem index_colorlist_of_le (g : Nat) (h : g ≤ 3) :
    index colorlist (g : Int) = [FgRed, FgYellow, FgGreen, FgBlue][g]? := by
  have h1 : (0 : Int) ≤ (g : Int) ∧ (g : Int) < ((colorlist.length : Nat) : Int) := by
    simp [colorlist]; omega
  simp only [index]
  rw [if_pos h1]
  simp [colorlist]

/-- C1: a line whose tag is an entry of `Levels` at a position strictly before the first
position of `MinLevel` is suppressed, `Check` returns `(FgBlack, false)`, on a freshly
constructed filter and on an initialized one. -/
theorem check_suppresses_below_min {σ : Type} (Levels : List LogLevel) (MinLevel : LogLevel)
    (w : σ) (pre tag post : Bytes) (j : Nat) (_hmin : MinLevel ∈ Levels)
    (hj : j < firstIndex Levels MinLevel) (hentry : Levels[j]? = some tag)
    (hpre : lbracket ∉ pre) (htag : rbracket ∉ tag) :
    ((newLevelFilter Levels MinLevel w).Check
        (pre ++ lbracket :: (tag ++ rbracket :: post))).map Prod.snd = some (FgBlack, false) ∧
    ((newLevelFilter Levels MinLevel w).onceDoInit.Check
        (pre ++ lbracket :: (tag ++ rbracket :: post))).map Prod.snd = some (FgBlack, false) := by
  have hbad : tag ∈ (newLevelFilter Levels MinLevel w).onceDoInit.badLevels := by
    rw [badLevels_new, mem_initLoop, mem_takeWhile_ne_iff]
    exact Or.inr ⟨j, hj, hentry⟩
  have h1 : ((newLevelFilter Levels MinLevel w).Check
      (pre ++ lbracket :: (tag ++ rbracket :: post))).map Prod.snd = some (FgBlack, false) := by
    rw [check_eq _ _ tag (checkLevel_tagged pre tag post hpre htag), if_pos hbad]
  exact ⟨h1, by rw [check_onceDoInit]; exact h1⟩

/-- Witness of C1: with levels DEBUG, WARN, ERROR and threshold WARN the line
`[DEBUG] baz` is suppressed. -/
theorem check_suppresses_below_min_witness :
    ascii "WARN" ∈ [ascii "DEBUG", ascii "WARN", ascii "ERROR"] ∧
    0 < firstIndex [ascii "DEBUG", ascii "WARN", ascii "ERROR"] (ascii "WARN") ∧
    [ascii "DEBUG", ascii "WARN", ascii "ERROR"][0]? = some (ascii "DEBUG") ∧
    lbracket ∉ ([] : Bytes) ∧ rbracket ∉ ascii "DEBUG" ∧
    (((newLevelFilter [ascii "DEBUG", ascii "WARN", ascii "ERROR"] (ascii "WARN")
        (Buffer.mk [])).Check
        ([] ++ lbracket :: (ascii "DEBUG" ++ rbracket :: ascii " baz\n"))).map Prod.snd
        = some (FgBlack, false) ∧
    ((newLevelFilter [ascii "DEBUG", ascii "WARN", ascii "ERROR"] (ascii "WARN")
        (Buffer.mk [])).onceDoInit.Check
        ([] ++ lbracket :: (ascii "DEBUG" ++ rbracket :: ascii " baz\n"))).map Prod.snd
        = some (FgBlack, false)) :=
  ⟨by decide, by decide, by decide, by decide, by decide,
    check_suppresses_below_min [ascii "DEBUG", ascii "WARN", ascii "ERROR"] (ascii "WARN")
      (Buffer.mk []) [] (ascii "DEBUG") (ascii " baz\n") 0
      (by decide) (by decide) (by decide) (by decide) (by decide)⟩

/-- C2 (counterexample): with a repeated entry the claim fails. For the levels A, B, A and
the threshold B the tag A equals the entry at position 2, after the position 1 of the
threshold, and the line `[A]` is suppressed all the same. -/
theorem check_allows_from_min_counterexample :
    ¬ ∀ (Levels : List LogLevel) (MinLevel : LogLevel) (w : Buffer) (pre tag post : Bytes)
        (j : Nat), MinLevel ∈ Levels → firstIndex Levels MinLevel ≤ j →
        Levels[j]? = some tag → lbracket ∉ pre → rbracket ∉ tag →
        ((newLevelFilter Levels MinLevel w).Check
          (pre ++ lbracket :: (tag ++ rbracket :: post))).map (fun r => r.2.2) = some true := by
  intro h
  have h1 := h [ascii "A", ascii "B", ascii "A"] (ascii "B") (Buffer.mk []) [] (ascii "A") [] 2
    (by decide) (by decide) (by decide) (by decide) (by decide)
  revert h1
  decide

/-- C2 (amended): a line whose tag is an entry of `Levels` that first occurs at or after
the first position of `MinLevel`, and not at the fifth position from the end, is
allowed. -/
theorem check_allows_from_min {σ : Type} (Levels : List LogLevel) (MinLevel : LogLevel)
    (w : σ) (pre tag post : Bytes) (_hmin : MinLevel ∈ Levels) (hmem : tag ∈ Levels)
    (hpos : firstIndex Levels MinLevel ≤ firstIndex Levels tag)
    (hgap : Levels.length - firstIndex Levels tag - 1 ≠ 4)
    (hpre : lbracket ∉ pre) (htag : rbracket ∉ tag) :
    ((newLevelFilter Levels MinLevel w).Check
        (pre ++ lbracket :: (tag ++ rbracket :: post))).map (fun r => r.2.2) = some true := by
  have hbad : tag ∉ (newLevelFilter Levels MinLevel w).onceDoInit.badLevels := by
    rw [badLevels_new, mem_initLoop, mem_takeWhile_ne_iff_firstIndex]
    simp only [List.not_mem_nil, false_or]
    omega
  have hlt := (firstIndex_lt_length_iff Levels tag).mpr hmem
  have hs := check_eq (newLevelFilter Levels MinLevel w) _ tag
    (checkLevel_tagged pre tag post hpre htag)
  rw [if_neg hbad] at hs
  have hc : ∃ cl, colorLoop Levels tag Levels 0 = some cl := by
    rw [colorLoop_spec, if_pos hmem]
    by_cases h4 : (Levels.length : Int) - (0 + (firstIndex Levels tag : Int)) - 1 > 4
    · exact ⟨Reset, by rw [if_pos h4]⟩
    · rw [if_neg h4]
      have e : (Levels.length : Int) - (0 + (firstIndex Levels tag : Int)) - 1
          = ((Levels.length - firstIndex Levels tag - 1 : Nat) : Int) := by omega
      rw [e, index_colorlist_of_le _ (by omega)]
      have h3 : Levels.length - firstIndex Levels tag - 1 < 4 := by omega
      exact ⟨[FgRed, FgYellow, FgGreen, FgBlue][Levels.length - firstIndex Levels tag - 1],
        by simp [h3]⟩
  obtain ⟨cl, hcl⟩ := hc
  have hn : (newLevelFilter Levels MinLevel w).Levels = Levels := rfl
  rw [hn, hcl] at hs
  have := congrArg (Option.map Prod.snd) hs
  simpa [Option.map_map] using this

/-- Witness of C2 (amended): with levels DEBUG, WARN, ERROR and threshold WARN the line
`[ERROR] bar` is allowed. -/
theorem check_allows_from_min_witness :
    ascii "WARN" ∈ [ascii "DEBUG", ascii "WARN", ascii "ERROR"] ∧
    ascii "ERROR" ∈ [ascii "DEBUG", ascii "WARN", ascii "ERROR"] ∧
    firstIndex [ascii "DEBUG", ascii "WARN", ascii "ERROR"] (ascii "WARN") ≤
      firstIndex [ascii "DEBUG", ascii "WARN", ascii "ERROR"] (ascii "ERROR") ∧
    [ascii "DEBUG", ascii "WARN", ascii "ERROR"].length -
      firstIndex [ascii "DEBUG", ascii "WARN", ascii "ERROR"] (ascii "ERROR") - 1 ≠ 4 ∧
    lbracket ∉ ([] : Bytes) ∧ rbracket ∉ ascii "ERROR" ∧
    ((newLevelFilter [ascii "DEBUG", ascii "WARN", ascii "ERROR"] (ascii "WARN")
        (Buffer.mk [])).Check
        ([] ++ lbracket :: (ascii "ERROR" ++ rbracket :: ascii " bar\n"))).map
          (fun r => r.2.2) = some true :=
  ⟨by decide, by decide, by decide, by decide, by decide, by decide,
    check_allows_from_min [ascii "DEBUG", ascii "WARN", ascii "ERROR"] (ascii "WARN")
      (Buffer.mk []) [] (ascii "ERROR") (ascii " bar\n")
      (by decide) (by decide) (by decide) (by decide) (by decide) (by decide)⟩

theorem check_writer {σ : Type} (f g : LevelFilter σ) (line : Bytes) (r : Attribute × Bool)
    (h : f.Check line = some (g, r)) : g = f.onceDoInit := by
  simp only [LevelFilter.Check] at h
  split at h
  · exact absurd h (by simp)
  · split at h
    · simp only [Option.some.injEq, Prod.mk.injEq] at h
      exact h.1.symm
    · split at h
      · exact absurd h (by simp)
      · simp only [Option.some.injEq, Prod.mk.injEq] at h
        exact h.1.symm

theorem onceDoInit_Writer {σ : Type} (f : LevelFilter σ) : f.onceDoInit.Writer = f.Writer := by
  unfold LevelFilter.onceDoInit LevelFilter.init
  split <;> rfl

theorem onceDoInit_Levels {σ : Type} (f : LevelFilter σ) : f.onceDoInit.Levels = f.Levels := by
  unfold LevelFilter.onceDoInit LevelFilter.init
  split <;> rfl

theorem onceDoInit_MinLevel {σ : Type} (f : LevelFilter σ) :
    f.onceDoInit.MinLevel = f.MinLevel := by
  unfold LevelFilter.onceDoInit LevelFilter.init
  split <;> rfl

/-- C3: when `Check` does not allow `p`, `Write` returns `(len(p), nil)` and the sink is
as it was before the call. -/
theorem write_suppressed {σ : Type} [IOWriter σ] (f g : LevelFilter σ) (p : Bytes)
    (cl : Attribute) (h : f.Check p = some (g, (cl, false))) :
    f.Write p = some (g, ((p.length : Int), none)) ∧ g.Writer = f.Writer := by
  refine ⟨by simp [LevelFilter.Write, h], ?_⟩
  rw [check_writer f g p _ h, onceDoInit_Writer]

/-- Witness of C3: the test filter over a buffer that already holds `x` keeps the buffer
on the line `[DEBUG] baz`. -/
theorem write_suppressed_witness :
    (newLevelFilter [ascii "DEBUG", ascii "WARN", ascii "ERROR"] (ascii "WARN")
        (Buffer.mk (ascii "x"))).Check (ascii "[DEBUG] baz\n")
      = some ((newLevelFilter [ascii "DEBUG", ascii "WARN", ascii "ERROR"] (ascii "WARN")
        (Buffer.mk (ascii "x"))).onceDoInit, (FgBlack, false)) ∧
    ((newLevelFilter [ascii "DEBUG", ascii "WARN", ascii "ERROR"] (ascii "WARN")
        (Buffer.mk (ascii "x"))).Write (ascii "[DEBUG] baz\n")
      = some ((newLevelFilter [ascii "DEBUG", ascii "WARN", ascii "ERROR"] (ascii "WARN")
        (Buffer.mk (ascii "x"))).onceDoInit, (((ascii "[DEBUG] baz\n").length : Int), none)) ∧
    (newLevelFilter [ascii "DEBUG", ascii "WARN", ascii "ERROR"] (ascii "WARN")
        (Buffer.mk (ascii "x"))).onceDoInit.Writer
      = (newLevelFilter [ascii "DEBUG", ascii "WARN", ascii "ERROR"] (ascii "WARN")
        (Buffer.mk (ascii "x"))).Writer) :=
  ⟨by rfl, write_suppressed _ _ (ascii "[DEBUG] baz\n") FgBlack (by rfl)⟩

theorem onceDoInit_once {σ : Type} (f : LevelFilter σ) : f.onceDoInit.once = true := by
  unfold LevelFilter.onceDoInit LevelFilter.init
  by_cases h : f.once = true <;> simp [h]

theorem sgr_Reset : sgr Reset = [27, 91, 48, 109] := by decide

theorem exists_first_split (b : Bytes) (c : UInt8) (h : c ∈ b) :
    ∃ pre rest, b = pre ++ c :: rest ∧ c ∉ pre := by
  induction b with
  | nil => exact absurd h (by simp)
  | cons a t ih =>
    by_cases hac : a = c
    · exact ⟨[], t, by simp [hac], by simp⟩
    · have ht : c ∈ t := by
        rcases List.mem_cons.mp h with e | e
        · exact absurd e.symm hac
        · exact e
      obtain ⟨pre, rest, e, hpre⟩ := ih ht
      refine ⟨a :: pre, rest, by simp [e], ?_⟩
      intro hm
      rcases List.mem_cons.mp hm with e' | e'
      · exact hac e'.symm
      · exact hpre e'

/-- Every line either has a first bracket pair, with the tag between them, or has no
tag: no `[`, or no `]` after its first `[`. -/
theorem line_shape (line : Bytes) :
    (∃ pre tag post, line = pre ++ lbracket :: (tag ++ rbracket :: post) ∧
      lbracket ∉ pre ∧ rbracket ∉ tag) ∨
    (lbracket ∉ line ∨
      ∃ pre rest, line = pre ++ lbracket :: rest ∧ lbracket ∉ pre ∧ rbracket ∉ rest) := by
  by_cases h : lbracket ∈ line
  · obtain ⟨pre, rest, e, hpre⟩ := exists_first_split line lbracket h
    by_cases hr : rbracket ∈ rest
    · obtain ⟨tag, post, e2, htag⟩ := exists_first_split rest rbracket hr
      exact Or.inl ⟨pre, tag, post, by rw [e, e2], hpre, htag⟩
    · exact Or.inr (Or.inr ⟨pre, rest, e, hpre, hr⟩)
  · exact Or.inr (Or.inl h)

/-- The slice expressions of `Check` never panic: `level` gets a value for every line. -/
theorem checkLevel_total (line : Bytes) : ∃ level, checkLevel line = some level := by
  rcases line_shape line with ⟨pre, tag, post, rfl, hpre, htag⟩ | h
  · exact ⟨tag, checkLevel_tagged pre tag post hpre htag⟩
  · exact ⟨[], checkLevel_untagged line h⟩

/-- The outcome of `Check` in terms of the tag and the stored set: for every filter and
every line, with `level` the value that lines 43 to 50 give. -/
theorem check_eq_none_iff {σ : Type} (f : LevelFilter σ) (line : Bytes) (level : LogLevel)
    (h : checkLevel line = some level) :
    (f.Check line).map Prod.snd = none ↔
      level ∉ f.onceDoInit.badLevels ∧ firstIndex f.Levels level + 5 = f.Levels.length := by
  rw [check_eq f line level h]
  by_cases hbad : level ∈ f.onceDoInit.badLevels
  · rw [if_pos hbad]
    exact iff_of_false (by simp) (fun hh => hh.1 hbad)
  · rw [if_neg hbad, colorLoop_spec]
    by_cases hmem : level ∈ f.Levels
    · have hlt := (firstIndex_lt_length_iff f.Levels level).mpr hmem
      rw [if_pos hmem]
      by_cases h4 : (f.Levels.length : Int) - (0 + (firstIndex f.Levels level : Int)) - 1 > 4
      · rw [if_pos h4]
        exact iff_of_false (by simp) (fun hh => by have := hh.2; omega)
      · rw [if_neg h4]
        by_cases h3 : f.Levels.length - firstIndex f.Levels level - 1 ≤ 3
        · have e : (f.Levels.length : Int) - (0 + (firstIndex f.Levels level : Int)) - 1
              = ((f.Levels.length - firstIndex f.Levels level - 1 : Nat) : Int) := by omega
          have hl : f.Levels.length - firstIndex f.Levels level - 1
              < [FgRed, FgYellow, FgGreen, FgBlue].length := by
            have : [FgRed, FgYellow, FgGreen, FgBlue].length = 4 := rfl
            omega
          rw [e, index_colorlist_of_le _ h3, List.getElem?_eq_getElem hl]
          exact iff_of_false (by simp) (fun hh => by have := hh.2; omega)
        · have e : (f.Levels.length : Int) - (0 + (firstIndex f.Levels level : Int)) - 1 = 4 := by
            omega
          rw [e]
          have hi : index colorlist 4 = none := by decide
          rw [hi]
          exact iff_of_true rfl ⟨hbad, by omega⟩
    · have hlen := firstIndex_eq_length f.Levels level hmem
      rw [if_neg hmem]
      exact iff_of_false (by simp) (fun hh => by have := hh.2; omega)
theorem forwardedOutput_congr {σ τ : Type} (f : LevelFilter σ) (g : LevelFilter τ)
    (h : ∀ l, (f.Check l).map Prod.snd = (g.Check l).map Prod.snd) (lines : List Bytes) :
    forwardedOutput f lines = forwardedOutput g lines := by
  induction lines with
  | nil => rfl
  | cons a t ih => simp only [forwardedOutput, h a, ih]

theorem forwardedOutput_allowed {σ : Type} (f g : LevelFilter σ) (line : Bytes)
    (cl : Attribute) (hc : f.Check line = some (g, (cl, true))) :
    forwardedOutput f [line] = render cl line := by
  simp only [forwardedOutput, hc, Option.map_some', List.append_nil]
  by_cases hr : cl = Reset
  · simp only [render, if_pos hr]
  · simp only [render, if_neg hr, sgr_Reset, sgr]
    rfl

theorem write_step (f : LevelFilter Buffer) (line : Bytes)
    (h : (f.Check line).isSome = true) :
    ∃ g r, f.Write line = some (g, r) ∧ g.Levels = f.Levels ∧
      g.onceDoInit.badLevels = f.onceDoInit.badLevels ∧
      g.Writer.data = f.Writer.data ++ forwardedOutput f [line] := by
  cases hc : f.Check line with
  | none => rw [hc] at h; exact absurd h (by simp)
  | some res =>
    obtain ⟨g, cl, ok⟩ := res
    have hg := check_writer f g line _ hc
    cases ok with
    | false =>
      refine ⟨g, ((line.length : Int), none), by simp [LevelFilter.Write, hc], ?_, ?_, ?_⟩
      · rw [hg, onceDoInit_Levels]
      · rw [hg, onceDoInit_idem]
      · rw [hg, onceDoInit_Writer]
        simp [forwardedOutput, hc]
    | true =>
      refine ⟨{ g with Writer := (Fprint cl g.Writer line).1 }, (Fprint cl g.Writer line).2,
        by simp [LevelFilter.Write, hc], ?_, ?_, ?_⟩
      · show g.Levels = f.Levels
        rw [hg, onceDoInit_Levels]
      · have ho : g.once = true := by rw [hg]; exact onceDoInit_once f
        have : (LevelFilter.onceDoInit
            { g with Writer := (Fprint cl g.Writer line).1 }).badLevels = g.badLevels := by
          simp [LevelFilter.onceDoInit, ho]
        rw [this, hg]
      · show (Fprint cl g.Writer line).1.data = _
        rw [forwardedOutput_allowed f g line cl hc, hg, onceDoInit_Writer]
        rfl

theorem write_sequence_of_isSome (f : LevelFilter Buffer) (lines : List Bytes)
    (h : ∀ l ∈ lines, (f.Check l).isSome = true) :
    ∃ g, f.run (lines.map Call.write) = some g ∧
      g.Writer.data = f.Writer.data ++ forwardedOutput f lines := by
  induction lines generalizing f with
  | nil => exact ⟨f, rfl, by simp [forwardedOutput]⟩
  | cons a t ih =>
    obtain ⟨g, r, hw, hl, hb, hd⟩ := write_step f a (h a (by simp))
    have hcg : ∀ l, (g.Check l).map Prod.snd = (f.Check l).map Prod.snd :=
      fun l => check_congr g f l hl hb
    have hsome : ∀ l ∈ t, (g.Check l).isSome = true := by
      intro l hlt
      have h1 := h l (by simp [hlt])
      have h2 := hcg l
      cases hgl : g.Check l with
      | some v => rfl
      | none =>
        rw [hgl] at h2
        cases hfl : f.Check l with
        | none => rw [hfl] at h1; exact absurd h1 (by simp)
        | some v => rw [hfl] at h2; exact absurd h2 (by simp)
    obtain ⟨g', hrun, hdata⟩ := ih g hsome
    refine ⟨g', ?_, ?_⟩
    · simp only [List.map_cons, LevelFilter.run, LevelFilter.call, hw, Option.map_some']
      exact hrun
    · rw [hdata, hd, forwardedOutput_congr g f hcg t]
      simp [forwardedOutput]

theorem check_isSome_of_gap_ne_four {σ : Type} (f : LevelFilter σ) (line : Bytes)
    (h : ∀ level, checkLevel line = some level →
      firstIndex f.Levels level + 5 ≠ f.Levels.length) :
    (f.Check line).isSome = true := by
  obtain ⟨level, hl⟩ := checkLevel_total line
  have hne : (f.Check line).map Prod.snd ≠ none := fun hn =>
    h level hl ((check_eq_none_iff f line level hl).mp hn).2
  cases hc : f.Check line with
  | none => rw [hc] at hne; exact absurd rfl hne
  | some v => rfl

/-- C4 (counterexample): the line `hello`, which has no tag, is allowed with the default
colour on the filter of `TestLevelFilter`, and the buffer then holds the line alone, not
the line between `ESC[0m` and `ESC[0m`. -/
theorem write_sequence_output_counterexample :
    ¬ ∀ (f : LevelFilter Buffer) (lines : List Bytes),
        ∃ g, f.run (lines.map Call.write) = some g ∧
          g.Writer.data = f.Writer.data ++ expectedOutput f lines := by
  intro h
  obtain ⟨g, hrun, hdata⟩ := h testFilter [ascii "hello\n"]
  have hrun' : testFilter.run ([ascii "hello\n"].map Call.write)
      = some { testFilter.onceDoInit with Writer := Buffer.mk (ascii "hello\n") } := by rfl
  rw [hrun'] at hrun
  simp only [Option.some.injEq] at hrun
  rw [← hrun] at hdata
  revert hdata
  decide

/-- C4 (amended): after the lines were written one after another to a filter over a
buffer, none of them with a tag that first occurs in `Levels` at the fifth position from
the end, the buffer holds what it held before followed, in call order, by the rendering
of each line that `Check` allows: the line itself for the default colour, and
`ESC[<code>m`, the line and `ESC[0m` for a palette colour; nothing for the other lines. -/
theorem write_sequence_output (f : LevelFilter Buffer) (lines : List Bytes)
    (h : ∀ l ∈ lines, ∀ level, checkLevel l = some level →
      firstIndex f.Levels level + 5 ≠ f.Levels.length) :
    ∃ g, f.run (lines.map Call.write) = some g ∧
      g.Writer.data = f.Writer.data ++ forwardedOutput f lines :=
  write_sequence_of_isSome f lines fun l hl => check_isSome_of_gap_ne_four f l (h l hl)

/-- Witness of C4 (amended): the filter and the four lines of `TestLevelFilter` leave
exactly the expected string of the test in the buffer. -/
theorem write_sequence_output_witness :
    (∀ l ∈ testLines, ∀ level, checkLevel l = some level →
      firstIndex testFilter.Levels level + 5 ≠ testFilter.Levels.length) ∧
    (∃ g, testFilter.run (testLines.map Call.write) = some g ∧
      g.Writer.data = testFilter.Writer.data ++ forwardedOutput testFilter testLines) ∧
    testFilter.Writer.data ++ forwardedOutput testFilter testLines = testExpected ∧
    (testFilter.run (testLines.map Call.write)).map (fun g => g.Writer.data)
      = some testExpected :=
  have hgap : ∀ l ∈ testLines, ∀ level, checkLevel l = some level →
      firstIndex testFilter.Levels level + 5 ≠ testFilter.Levels.length := by
    intro l _ level _
    have h1 := firstIndex_le_length testFilter.Levels level
    have h2 : testFilter.Levels.length = 3 := rfl
    omega
  ⟨hgap, write_sequence_output testFilter testLines hgap, by decide, by decide⟩

theorem write_Levels {σ : Type} [IOWriter σ] (f g : LevelFilter σ) (p : Bytes)
    (r : Int × Option Error) (h : f.Write p = some (g, r)) : g.Levels = f.Levels := by
  simp only [LevelFilter.Write] at h
  cases hc : f.Check p with
  | none => rw [hc] at h; exact absurd h (by simp)
  | some res =>
    obtain ⟨k, cl, ok⟩ := res
    have hk := check_writer f k p _ hc
    rw [hc] at h
    cases ok with
    | false =>
      simp only [if_true, Option.some.injEq, Prod.mk.injEq] at h
      rw [← h.1, hk, onceDoInit_Levels]
    | true =>
      simp only [Bool.true_eq_false, if_false, Option.some.injEq, Prod.mk.injEq] at h
      rw [← h.1]
      show k.Levels = f.Levels
      rw [hk, onceDoInit_Levels]

theorem call_Levels {σ : Type} [IOWriter σ] (f g : LevelFilter σ) (c : Call)
    (h : f.call c = some g) : g.Levels = f.Levels := by
  cases c with
  | check line =>
    simp only [LevelFilter.call, Option.map_eq_some'] at h
    obtain ⟨⟨k, r⟩, hk, rfl⟩ := h
    rw [check_writer f k line r hk, onceDoInit_Levels]
  | write p =>
    simp only [LevelFilter.call, Option.map_eq_some'] at h
    obtain ⟨⟨k, r⟩, hk, rfl⟩ := h
    exact write_Levels f k p r hk
  | setMinLevel m =>
    simp only [LevelFilter.call, Option.some.injEq] at h
    rw [← h]
    rfl

theorem run_Levels {σ : Type} [IOWriter σ] (f g : LevelFilter σ) (cs : List Call)
    (h : f.run cs = some g) : g.Levels = f.Levels := by
  induction cs generalizing f with
  | nil =>
    simp only [LevelFilter.run, Option.some.injEq] at h
    rw [h]
  | cons c t ih =>
    simp only [LevelFilter.run] at h
    cases hc : f.call c with
    | none => rw [hc] at h; exact absurd h (by simp)
    | some k =>
      rw [hc] at h
      rw [ih k h, call_Levels f k c hc]

theorem setMinLevel_badLevels {σ : Type} (f : LevelFilter σ) (m : LogLevel) :
    (f.SetMinLevel m).onceDoInit.badLevels = initLoop m f.Levels [] := by
  unfold LevelFilter.onceDoInit LevelFilter.SetMinLevel LevelFilter.init
  by_cases h : f.once = true <;> simp [h]

/-- C5: whatever calls were made on a filter before, after `SetMinLevel(m)` the next
`Check` of any line returns what a freshly constructed filter with the same levels and
the threshold `m` returns for the line (a panic of the one is a panic of the other). -/
theorem setMinLevel_effective {σ : Type} [IOWriter σ] (Levels : List LogLevel)
    (m0 m : LogLevel) (w w' : σ) (cs : List Call) (f : LevelFilter σ)
    (hreach : (newLevelFilter Levels m0 w).run cs = some f) (line : Bytes) :
    ((f.SetMinLevel m).Check line).map Prod.snd =
      ((newLevelFilter Levels m w').Check line).map Prod.snd := by
  have hl : f.Levels = Levels := run_Levels _ f cs hreach
  apply check_congr
  · show f.Levels = Levels
    exact hl
  · rw [setMinLevel_badLevels, badLevels_new, hl]

/-- Witness of C5: the scenario of `TestLevelFilter_SetMinLevel`. With the threshold ERROR
the WARN and DEBUG lines are suppressed; after `SetMinLevel(WARN)` the WARN line is
allowed, the DEBUG line stays suppressed and the ERROR line stays allowed. -/
theorem setMinLevel_effective_witness :
    testFilterError.run [Call.check (ascii "[WARN] foo\n"), Call.write (ascii "[ERROR] bar\n"),
        Call.check (ascii "[DEBUG] baz\n")]
      = some { testFilterError.onceDoInit with
          Writer := Buffer.mk (render FgRed (ascii "[ERROR] bar\n")) } ∧
    (testFilterError.Check (ascii "[WARN] foo\n")).map Prod.snd = some (FgBlack, false) ∧
    (testFilterError.Check (ascii "[DEBUG] baz\n")).map Prod.snd = some (FgBlack, false) ∧
    ((LevelFilter.SetMinLevel { testFilterError.onceDoInit with
          Writer := Buffer.mk (render FgRed (ascii "[ERROR] bar\n")) } (ascii "WARN")).Check
        (ascii "[WARN] foo\n")).map Prod.snd
      = (testFilter.Check (ascii "[WARN] foo\n")).map Prod.snd ∧
    (testFilter.Check (ascii "[WARN] foo\n")).map Prod.snd = some (FgYellow, true) ∧
    (testFilter.Check (ascii "[DEBUG] baz\n")).map Prod.snd = some (FgBlack, false) ∧
    (testFilter.Check (ascii "[ERROR] bar\n")).map Prod.snd = some (FgRed, true) :=
  ⟨by rfl, by decide, by decide,
    setMinLevel_effective [ascii "DEBUG", ascii "WARN", ascii "ERROR"] (ascii "ERROR")
      (ascii "WARN") (Buffer.mk []) (Buffer.mk [])
      [Call.check (ascii "[WARN] foo\n"), Call.write (ascii "[ERROR] bar\n"),
        Call.check (ascii "[DEBUG] baz\n")] _ (by rfl) (ascii "[WARN] foo\n"),
    by decide, by decide, by decide⟩

theorem not_mem_badLevels_of_not_mem {σ : Type} (Levels : List LogLevel) (MinLevel : LogLevel)
    (w : σ) (x : LogLevel) (h : x ∉ Levels) :
    x ∉ (newLevelFilter Levels MinLevel w).onceDoInit.badLevels := by
  rw [badLevels_new, mem_initLoop, mem_takeWhile_ne_iff_firstIndex]
  have h1 := firstIndex_eq_length Levels x h
  have h2 := firstIndex_le_length Levels MinLevel
  simp only [List.not_mem_nil, false_or]
  omega

theorem check_of_not_mem {σ : Type} (Levels : List LogLevel) (MinLevel : LogLevel) (w : σ)
    (line : Bytes) (level : LogLevel) (hl : checkLevel line = some level)
    (h : level ∉ Levels) :
    ((newLevelFilter Levels MinLevel w).Check line).map Prod.snd = some (Reset, true) := by
  rw [check_eq _ _ level hl, if_neg (not_mem_badLevels_of_not_mem Levels MinLevel w level h)]
  show (colorLoop Levels level Levels 0).map (fun cl => (cl, true)) = some (Reset, true)
  rw [colorLoop_spec, if_neg h]
  rfl

/-- C6: when `MinLevel` does not occur in `Levels`, a line whose tag is any entry of
`Levels` is suppressed. -/
theorem check_absent_min_suppresses {σ : Type} (Levels : List LogLevel) (MinLevel : LogLevel)
    (w : σ) (pre tag post : Bytes) (hmin : MinLevel ∉ Levels) (hmem : tag ∈ Levels)
    (hpre : lbracket ∉ pre) (htag : rbracket ∉ tag) :
    ((newLevelFilter Levels MinLevel w).Check
        (pre ++ lbracket :: (tag ++ rbracket :: post))).map Prod.snd = some (FgBlack, false) := by
  have hbad : tag ∈ (newLevelFilter Levels MinLevel w).onceDoInit.badLevels := by
    rw [badLevels_new, mem_initLoop, mem_takeWhile_ne_iff_firstIndex]
    right
    rw [firstIndex_eq_length Levels MinLevel hmin]
    exact (firstIndex_lt_length_iff Levels tag).mpr hmem
  rw [check_eq _ _ tag (checkLevel_tagged pre tag post hpre htag), if_pos hbad]

/-- Witness of C6: with levels DEBUG, WARN, ERROR and the threshold INFO, which is not a
level, the line `[ERROR] bar` is suppressed. -/
theorem check_absent_min_suppresses_witness :
    ascii "INFO" ∉ [ascii "DEBUG", ascii "WARN", ascii "ERROR"] ∧
    ascii "ERROR" ∈ [ascii "DEBUG", ascii "WARN", ascii "ERROR"] ∧
    lbracket ∉ ([] : Bytes) ∧ rbracket ∉ ascii "ERROR" ∧
    ((newLevelFilter [ascii "DEBUG", ascii "WARN", ascii "ERROR"] (ascii "INFO")
        (Buffer.mk [])).Check
        ([] ++ lbracket :: (ascii "ERROR" ++ rbracket :: ascii " bar\n"))).map Prod.snd
      = some (FgBlack, false) :=
  ⟨by decide, by decide, by decide, by decide,
    check_absent_min_suppresses [ascii "DEBUG", ascii "WARN", ascii "ERROR"] (ascii "INFO")
      (Buffer.mk []) [] (ascii "ERROR") (ascii " bar\n")
      (by decide) (by decide) (by decide) (by decide)⟩

/-- C7: a line whose tag does not occur in `Levels` is allowed with the default colour,
`Check` returns `(Reset, true)`, whatever `MinLevel` is. -/
theorem check_unrecognized_tag {σ : Type} (Levels : List LogLevel) (MinLevel : LogLevel)
    (w : σ) (pre tag post : Bytes) (hmem : tag ∉ Levels)
    (hpre : lbracket ∉ pre) (htag : rbracket ∉ tag) :
    ((newLevelFilter Levels MinLevel w).Check
        (pre ++ lbracket :: (tag ++ rbracket :: post))).map Prod.snd = some (Reset, true) :=
  check_of_not_mem Levels MinLevel w _ tag (checkLevel_tagged pre tag post hpre htag) hmem

/-- Witness of C7: with levels DEBUG, WARN, ERROR and threshold ERROR the line
`[TRACE] x` is allowed with the default colour. -/
theorem check_unrecognized_tag_witness :
    ascii "TRACE" ∉ [ascii "DEBUG", ascii "WARN", ascii "ERROR"] ∧
    lbracket ∉ ([] : Bytes) ∧ rbracket ∉ ascii "TRACE" ∧
    ((newLevelFilter [ascii "DEBUG", ascii "WARN", ascii "ERROR"] (ascii "ERROR")
        (Buffer.mk [])).Check
        ([] ++ lbracket :: (ascii "TRACE" ++ rbracket :: ascii " x\n"))).map Prod.snd
      = some (Reset, true) :=
  ⟨by decide, by decide, by decide,
    check_unrecognized_tag [ascii "DEBUG", ascii "WARN", ascii "ERROR"] (ascii "ERROR")
      (Buffer.mk []) [] (ascii "TRACE") (ascii " x\n") (by decide) (by decide) (by decide)⟩

/-- C8 (counterexample): when the empty string is a level below the threshold, a line
without a tag is suppressed: levels `""`, WARN, threshold WARN, line `hello`. -/
theorem check_no_tag_counterexample :
    ¬ ∀ (Levels : List LogLevel) (MinLevel : LogLevel) (w : Buffer) (line : Bytes),
        (lbracket ∉ line ∨
          ∃ pre rest, line = pre ++ lbracket :: rest ∧ lbracket ∉ pre ∧ rbracket ∉ rest) →
        ((newLevelFilter Levels MinLevel w).Check line).map Prod.snd = some (Reset, true) := by
  intro h
  have h1 := h [[], ascii "WARN"] (ascii "WARN") (Buffer.mk []) (ascii "hello")
    (Or.inl (by decide))
  revert h1
  decide

/-- C8 (amended): when the empty string is not an entry of `Levels`, a line from which no
tag can be extracted is allowed with the default colour. -/
theorem check_no_tag {σ : Type} (Levels : List LogLevel) (MinLevel : LogLevel) (w : σ)
    (line : Bytes) (hempty : ([] : LogLevel) ∉ Levels)
    (hline : lbracket ∉ line ∨
      ∃ pre rest, line = pre ++ lbracket :: rest ∧ lbracket ∉ pre ∧ rbracket ∉ rest) :
    ((newLevelFilter Levels MinLevel w).Check line).map Prod.snd = some (Reset, true) :=
  check_of_not_mem Levels MinLevel w line [] (checkLevel_untagged line hline) hempty

/-- Witness of C8 (amended): with levels DEBUG, WARN, ERROR and threshold WARN the line
`hello [WARN` , which has no closing bracket, is allowed with the default colour. -/
theorem check_no_tag_witness :
    ([] : LogLevel) ∉ [ascii "DEBUG", ascii "WARN", ascii "ERROR"] ∧
    lbracket ∉ ascii "hello " ∧ rbracket ∉ ascii "WARN" ∧
    ((newLevelFilter [ascii "DEBUG", ascii "WARN", ascii "ERROR"] (ascii "WARN")
        (Buffer.mk [])).Check (ascii "hello " ++ lbracket :: ascii "WARN")).map Prod.snd
      = some (Reset, true) :=
  ⟨by decide, by decide, by decide,
    check_no_tag [ascii "DEBUG", ascii "WARN", ascii "ERROR"] (ascii "WARN") (Buffer.mk [])
      (ascii "hello " ++ lbracket :: ascii "WARN") (by decide)
      (Or.inr ⟨ascii "hello ", ascii "WARN", rfl, by decide, by decide⟩)⟩

theorem check_eq_of_not_suppressed {σ : Type} (Levels : List LogLevel) (MinLevel : LogLevel)
    (w : σ) (line : Bytes) (level : LogLevel) (hl : checkLevel line = some level)
    (hns : ((newLevelFilter Levels MinLevel w).Check line).map (fun r => r.2.2) ≠ some false) :
    ((newLevelFilter Levels MinLevel w).Check line).map Prod.snd =
      (colorLoop Levels level Levels 0).map fun cl => (cl, true) := by
  have hs := check_eq (newLevelFilter Levels MinLevel w) line level hl
  by_cases hbad : level ∈ (newLevelFilter Levels MinLevel w).onceDoInit.badLevels
  · rw [if_pos hbad] at hs
    exfalso
    apply hns
    have := congrArg (Option.map Prod.snd) hs
    simpa [Option.map_map] using this
  · rw [if_neg hbad] at hs
    exact hs

/-- C9: a line that is not suppressed and whose tag first occurs in `Levels` at index `i`
with `len(Levels) - i - 1` at most 3 is allowed with the palette colour of that gap:
red for 0, yellow for 1, green for 2, blue for 3. -/
theorem check_palette_colour {σ : Type} (Levels : List LogLevel) (MinLevel : LogLevel)
    (w : σ) (pre tag post : Bytes) (i : Nat) (hfirst : firstIndex Levels tag = i)
    (hi : i < Levels.length) (hgap : Levels.length - i - 1 ≤ 3)
    (hns : ((newLevelFilter Levels MinLevel w).Check
        (pre ++ lbracket :: (tag ++ rbracket :: post))).map (fun r => r.2.2) ≠ some false)
    (hpre : lbracket ∉ pre) (htag : rbracket ∉ tag) :
    ∃ cl, [FgRed, FgYellow, FgGreen, FgBlue][Levels.length - i - 1]? = some cl ∧
      ((newLevelFilter Levels MinLevel w).Check
        (pre ++ lbracket :: (tag ++ rbracket :: post))).map Prod.snd = some (cl, true) := by
  have hmem : tag ∈ Levels := (firstIndex_lt_length_iff Levels tag).mp (by omega)
  have h4 : ¬ ((Levels.length : Int) - (0 + (firstIndex Levels tag : Int)) - 1 > 4) := by
    omega
  have e : (Levels.length : Int) - (0 + (firstIndex Levels tag : Int)) - 1
      = ((Levels.length - i - 1 : Nat) : Int) := by omega
  have hlt : Levels.length - i - 1 < [FgRed, FgYellow, FgGreen, FgBlue].length := by
    simp only [List.length_cons, List.length_nil]
    omega
  refine ⟨[FgRed, FgYellow, FgGreen, FgBlue][Levels.length - i - 1], ?_, ?_⟩
  · exact List.getElem?_eq_getElem hlt
  · rw [check_eq_of_not_suppressed Levels MinLevel w _ tag
        (checkLevel_tagged pre tag post hpre htag) hns,
      colorLoop_spec, if_pos hmem, if_neg h4, e, index_colorlist_of_le _ hgap,
      List.getElem?_eq_getElem hlt]
    rfl

/-- Witness of C9: with levels DEBUG, WARN, ERROR and threshold WARN the line
`[ERROR] bar` gets `FgRed`, code 31, and the line `[WARN] foo` gets `FgYellow`, code 33. -/
theorem check_palette_colour_witness :
    firstIndex [ascii "DEBUG", ascii "WARN", ascii "ERROR"] (ascii "ERROR") = 2 ∧
    2 < [ascii "DEBUG", ascii "WARN", ascii "ERROR"].length ∧
    [ascii "DEBUG", ascii "WARN", ascii "ERROR"].length - 2 - 1 ≤ 3 ∧
    (testFilter.Check ([] ++ lbracket :: (ascii "ERROR" ++ rbracket :: ascii " bar\n"))).map
      (fun r => r.2.2) ≠ some false ∧
    (∃ cl, [FgRed, FgYellow, FgGreen, FgBlue][
        [ascii "DEBUG", ascii "WARN", ascii "ERROR"].length - 2 - 1]? = some cl ∧
      ((newLevelFilter [ascii "DEBUG", ascii "WARN", ascii "ERROR"] (ascii "WARN")
        (Buffer.mk [])).Check
        ([] ++ lbracket :: (ascii "ERROR" ++ rbracket :: ascii " bar\n"))).map Prod.snd
        = some (cl, true)) ∧
    (testFilter.Check (ascii "[ERROR] bar\n")).map Prod.snd = some (31, true) ∧
    (testFilter.Check (ascii "[WARN] foo\n")).map Prod.snd = some (33, true) ∧
    FgRed = 31 ∧ FgYellow = 33 :=
  ⟨by decide, by decide, by decide, by decide,
    check_palette_colour [ascii "DEBUG", ascii "WARN", ascii "ERROR"] (ascii "WARN")
      (Buffer.mk []) [] (ascii "ERROR") (ascii " bar\n") 2
      (by decide) (by decide) (by decide) (by decide) (by decide) (by decide),
    by decide, by decide, by decide, by decide⟩

/-- A line that is not suppressed and whose tag first occurs in `Levels` at the fifth
position from the end, `len(Levels) - i - 1 = 4`, makes `Check` panic: the guard
`gap > len(colorlist)` lets 4 through and `colorlist[4]` is out of range. -/
theorem check_gap_four_panics {σ : Type} (Levels : List LogLevel) (MinLevel : LogLevel)
    (w : σ) (pre tag post : Bytes) (hgap : firstIndex Levels tag + 5 = Levels.length)
    (hns : ((newLevelFilter Levels MinLevel w).Check
        (pre ++ lbracket :: (tag ++ rbracket :: post))).map (fun r => r.2.2) ≠ some false)
    (hpre : lbracket ∉ pre) (htag : rbracket ∉ tag) :
    ((newLevelFilter Levels MinLevel w).Check
        (pre ++ lbracket :: (tag ++ rbracket :: post))).map Prod.snd = none := by
  have hmem : tag ∈ Levels := (firstIndex_lt_length_iff Levels tag).mp (by omega)
  have h4 : ¬ ((Levels.length : Int) - (0 + (firstIndex Levels tag : Int)) - 1 > 4) := by
    omega
  have e : (Levels.length : Int) - (0 + (firstIndex Levels tag : Int)) - 1 = 4 := by omega
  rw [check_eq_of_not_suppressed Levels MinLevel w _ tag
      (checkLevel_tagged pre tag post hpre htag) hns,
    colorLoop_spec, if_pos hmem, if_neg h4, e]
  rfl

/-- A line that is not suppressed and whose tag first occurs in `Levels` at index `i`
with `len(Levels) - i - 1` at least 5 is allowed with the default colour. -/
theorem check_gap_above_four {σ : Type} (Levels : List LogLevel) (MinLevel : LogLevel)
    (w : σ) (pre tag post : Bytes) (hgap : firstIndex Levels tag + 6 ≤ Levels.length)
    (hns : ((newLevelFilter Levels MinLevel w).Check
        (pre ++ lbracket :: (tag ++ rbracket :: post))).map (fun r => r.2.2) ≠ some false)
    (hpre : lbracket ∉ pre) (htag : rbracket ∉ tag) :
    ((newLevelFilter Levels MinLevel w).Check
        (pre ++ lbracket :: (tag ++ rbracket :: post))).map Prod.snd = some (Reset, true) := by
  have hmem : tag ∈ Levels := (firstIndex_lt_length_iff Levels tag).mp (by omega)
  have h4 : (Levels.length : Int) - (0 + (firstIndex Levels tag : Int)) - 1 > 4 := by
    omega
  rw [check_eq_of_not_suppressed Levels MinLevel w _ tag
      (checkLevel_tagged pre tag post hpre htag) hns,
    colorLoop_spec, if_pos hmem, if_pos h4]
  rfl

/-- C10 (failing input): with the five levels TRACE, DEBUG, INFO, WARN, ERROR and the
threshold TRACE, the line `[TRACE] x` is not suppressed and its tag is the fifth entry
from the end, outside the last four; `Check` does not return `(Reset, true)`, it panics.
With a sixth level VERBOSE in front, the line `[VERBOSE] x` does get `(Reset, true)`. -/
theorem check_fifth_from_end_panics :
    4 < [ascii "TRACE", ascii "DEBUG", ascii "INFO", ascii "WARN", ascii "ERROR"].length ∧
    firstIndex [ascii "TRACE", ascii "DEBUG", ascii "INFO", ascii "WARN", ascii "ERROR"]
      (ascii "TRACE") = 0 ∧
    ((newLevelFilter [ascii "TRACE", ascii "DEBUG", ascii "INFO", ascii "WARN", ascii "ERROR"]
        (ascii "TRACE") (Buffer.mk [])).Check (ascii "[TRACE] x\n")).map Prod.snd = none ∧
    ((newLevelFilter [ascii "VERBOSE", ascii "TRACE", ascii "DEBUG", ascii "INFO", ascii "WARN",
        ascii "ERROR"] (ascii "VERBOSE") (Buffer.mk [])).Check
        (ascii "[VERBOSE] x\n")).map Prod.snd = some (Reset, true) := by
  decide

/-- C11 (failing input): the slice expressions of `Check` are valid for every line, but
the palette is indexed at position 4, its length: with the five levels TRACE, DEBUG,
INFO, WARN, ERROR and the threshold TRACE the call `Check("[TRACE] starting\n")` panics
and returns no pair. -/
theorem check_not_total :
    (∀ line : Bytes, (checkLevel line).isSome = true) ∧
    index colorlist 4 = none ∧
    ((newLevelFilter [ascii "TRACE", ascii "DEBUG", ascii "INFO", ascii "WARN", ascii "ERROR"]
        (ascii "TRACE") (Buffer.mk [])).Check (ascii "[TRACE] starting\n")).isNone = true := by
  refine ⟨fun line => ?_, by decide, by decide⟩
  obtain ⟨level, h⟩ := checkLevel_total line
  rw [h]
  rfl

theorem check_onceDoInit_eq {σ : Type} (f : LevelFilter σ) (line : Bytes) :
    f.onceDoInit.Check line = f.Check line := by
  simp only [LevelFilter.Check, onceDoInit_idem]

theorem run_checks {σ : Type} [IOWriter σ] (f g : LevelFilter σ) (lines : List Bytes)
    (h : f.run (lines.map Call.check) = some g) :
    (lines = [] ∧ g = f) ∨ (lines ≠ [] ∧ g = f.onceDoInit) := by
  induction lines generalizing f with
  | nil =>
    simp only [List.map_nil, LevelFilter.run, Option.some.injEq] at h
    exact Or.inl ⟨rfl, h.symm⟩
  | cons a t ih =>
    right
    refine ⟨by simp, ?_⟩
    simp only [List.map_cons, LevelFilter.run, LevelFilter.call] at h
    cases hc : f.Check a with
    | none => rw [hc] at h; exact absurd h (by simp)
    | some res =>
      obtain ⟨k, r⟩ := res
      rw [hc] at h
      have hk := check_writer f k a r hc
      rcases ih k h with ⟨_, e⟩ | ⟨_, e⟩
      · rw [e, hk]
      · rw [e, hk, onceDoInit_idem]

/-- C12: after any number of calls of `Check` in a row, on any lines, a further `Check` of
a line has the outcome that a `Check` of the line has before them, and once a first
`Check` was made a further `Check` leaves the filter as it is, `Levels`, `MinLevel` and
the stored set included. -/
theorem check_idempotent {σ : Type} [IOWriter σ] (f g : LevelFilter σ) (lines : List Bytes)
    (line : Bytes) (hrun : f.run (lines.map Call.check) = some g) :
    (g.Check line).map Prod.snd = (f.Check line).map Prod.snd ∧
    (lines ≠ [] → ∀ g' r, g.Check line = some (g', r) →
      g' = g ∧ g'.Levels = g.Levels ∧ g'.MinLevel = g.MinLevel ∧
        g'.badLevels = g.badLevels) := by
  rcases run_checks f g lines hrun with ⟨_, e⟩ | ⟨hne, e⟩
  · subst e
    exact ⟨rfl, fun hne => absurd ‹lines = []› hne⟩
  · refine ⟨by rw [e, check_onceDoInit_eq], fun _ g' r hg' => ?_⟩
    have h1 := check_writer g g' line r hg'
    have h2 : g' = g := by rw [h1, e, onceDoInit_idem]
    rw [h2]
    exact ⟨rfl, rfl, rfl, rfl⟩

/-- Witness of C12: on the filter of `TestLevelFilterCheck`, after the lines `[WARN] foo`,
`[DEBUG] baz` and `[WARN] foo` were checked, the line `[WARN] foo` is still allowed in
yellow and the line `[DEBUG] baz` still suppressed. -/
theorem check_idempotent_witness :
    testFilter.run ([ascii "[WARN] foo\n", ascii "[DEBUG] baz\n", ascii "[WARN] foo\n"].map
      Call.check) = some testFilter.onceDoInit ∧
    ((testFilter.onceDoInit.Check (ascii "[WARN] foo\n")).map Prod.snd
        = (testFilter.Check (ascii "[WARN] foo\n")).map Prod.snd ∧
      ([ascii "[WARN] foo\n", ascii "[DEBUG] baz\n", ascii "[WARN] foo\n"] ≠ [] →
        ∀ g' r, testFilter.onceDoInit.Check (ascii "[WARN] foo\n") = some (g', r) →
          g' = testFilter.onceDoInit ∧ g'.Levels = testFilter.onceDoInit.Levels ∧
            g'.MinLevel = testFilter.onceDoInit.MinLevel ∧
            g'.badLevels = testFilter.onceDoInit.badLevels)) ∧
    (testFilter.Check (ascii "[WARN] foo\n")).map Prod.snd = some (FgYellow, true) ∧
    (testFilter.onceDoInit.Check (ascii "[DEBUG] baz\n")).map Prod.snd
      = some (FgBlack, false) :=
  ⟨by rfl,
    check_idempotent testFilter testFilter.onceDoInit
      [ascii "[WARN] foo\n", ascii "[DEBUG] baz\n", ascii "[WARN] foo\n"]
      (ascii "[WARN] foo\n") (by rfl),
    by decide, by decide⟩

/-- C13: the tag is the content of the first bracket pair: bytes before the first `[`
that contain no `[`, and any bytes after the first `]` that follows it, do not change the
outcome of `Check`. -/
theorem check_first_bracket_pair {σ : Type} (f : LevelFilter σ) (pre tag post : Bytes)
    (hpre : lbracket ∉ pre) (htag : rbracket ∉ tag) :
    (f.Check (pre ++ lbracket :: (tag ++ rbracket :: post))).map Prod.snd =
      (f.Check (lbracket :: (tag ++ [rbracket]))).map Prod.snd := by
  have h1 := checkLevel_tagged pre tag post hpre htag
  have h2 := checkLevel_tagged [] tag [] (by simp) htag
  rw [check_eq f _ tag h1]
  rw [List.nil_append] at h2
  rw [check_eq f _ tag h2]

/-- Witness of C13: on the test filter the line `]x[WARN[] foo [ERROR]` has the outcome
of `[WARN[]`, a tag that is no level; the comparison is by bytes, `[warn]` is not the
level WARN and `[debug]` is not the suppressed level DEBUG. -/
theorem check_first_bracket_pair_witness :
    lbracket ∉ ascii "]x" ∧ rbracket ∉ ascii "WARN[" ∧
    (testFilter.Check (ascii "]x" ++ lbracket :: (ascii "WARN[" ++ rbracket ::
        ascii " foo [ERROR]\n"))).map Prod.snd
      = (testFilter.Check (lbracket :: (ascii "WARN[" ++ [rbracket]))).map Prod.snd ∧
    (testFilter.Check (ascii "]x[WARN[] foo [ERROR]\n")).map Prod.snd = some (Reset, true) ∧
    (testFilter.Check (ascii "x [WARN] foo [DEBUG]\n")).map Prod.snd = some (FgYellow, true) ∧
    (testFilter.Check (ascii "[warn] foo\n")).map Prod.snd = some (Reset, true) ∧
    (testFilter.Check (ascii "[debug] foo\n")).map Prod.snd = some (Reset, true) ∧
    (testFilter.Check (ascii "[DEBUG] foo\n")).map Prod.snd = some (FgBlack, false) :=
  ⟨by decide, by decide,
    check_first_bracket_pair testFilter (ascii "]x") (ascii "WARN[") (ascii " foo [ERROR]\n")
      (by decide) (by decide),
    by decide, by decide, by decide, by decide, by decide⟩

theorem write_not_allowed {σ : Type} [IOWriter σ] (f g : LevelFilter σ) (p : Bytes)
    (cl : Attribute) (h : f.Check p = some (g, (cl, false))) :
    f.Write p = some (g, ((p.length : Int), none)) := by
  simp [LevelFilter.Write, h]

theorem write_allowed {σ : Type} [IOWriter σ] (f g : LevelFilter σ) (p : Bytes)
    (cl : Attribute) (h : f.Check p = some (g, (cl, true))) :
    f.Write p = some ({ g with Writer := (IOWriter.Write f.Writer (render cl p)).1 },
      (IOWriter.Write f.Writer (render cl p)).2) := by
  have hw : g.Writer = f.Writer := by rw [check_writer f g p _ h, onceDoInit_Writer]
  simp [LevelFilter.Write, h, Fprint, hw]

theorem render_Reset (p : Bytes) : render Reset p = p := by
  simp only [render, if_true]

theorem length_lt_render (cl : Attribute) (p : Bytes) (h : cl ≠ Reset) :
    (p.length : Int) < ((render cl p).length : Int) := by
  simp only [render, if_neg h, sgr, List.length_append, List.length_cons, List.length_nil]
  omega

/-- C14 (counterexample): on the filter of `TestLevelFilter` over a buffer the line
`hello` is allowed with the default colour, whose rendering is the line itself, and
`Write` returns the count 6, which is `len(p)`. -/
theorem write_count_counterexample :
    ¬ ∀ (f g : LevelFilter Buffer) (p : Bytes) (cl : Attribute) (n : Int),
        f.Check p = some (g, (cl, true)) → (f.Write p).map Prod.snd = some (n, none) →
        n = ((render cl p).length : Int) ∧ n ≠ (p.length : Int) := by
  intro h
  have h1 := h testFilter testFilter.onceDoInit (ascii "hello\n") Reset 6 (by rfl) (by decide)
  exact h1.2 (by decide)

/-- C14 (amended): `Write` returns a non-nil error exactly when `Check` allows `p` and
the sink returns an error for the rendered bytes; for an allowed line `Write` returns the
sink's own `(count, error)`; when the sink takes the rendered bytes in full without an
error the count is their length, which is more than `len(p)` for a palette colour and is
`len(p)` for the default colour, whose rendering is `p` itself. -/
theorem write_error_iff {σ : Type} [IOWriter σ] (f : LevelFilter σ) (p : Bytes) :
    ((∃ g n e, f.Write p = some (g, (n, some e))) ↔
      ∃ g cl, f.Check p = some (g, (cl, true)) ∧
        ∃ e, (IOWriter.Write f.Writer (render cl p)).2.2 = some e) ∧
    (∀ g cl, f.Check p = some (g, (cl, true)) →
      (f.Write p).map Prod.snd = some (IOWriter.Write f.Writer (render cl p)).2) ∧
    (∀ g cl, f.Check p = some (g, (cl, true)) →
      (IOWriter.Write f.Writer (render cl p)).2 = (((render cl p).length : Int), none) →
      (f.Write p).map Prod.snd = some (((render cl p).length : Int), none) ∧
        (cl ≠ Reset → (p.length : Int) < ((render cl p).length : Int)) ∧
        (cl = Reset → render cl p = p)) := by
  refine ⟨⟨?_, ?_⟩, ?_, ?_⟩
  · rintro ⟨g, n, e, hw⟩
    cases hc : f.Check p with
    | none => simp [LevelFilter.Write, hc] at hw
    | some res =>
      obtain ⟨k, cl, ok⟩ := res
      cases ok with
      | false =>
        have := write_not_allowed f k p cl hc
        rw [this] at hw
        simp at hw
      | true =>
        refine ⟨k, cl, rfl, e, ?_⟩
        rw [write_allowed f k p cl hc] at hw
        simp only [Option.some.injEq, Prod.mk.injEq] at hw
        rw [hw.2]
  · rintro ⟨g, cl, hc, e, he⟩
    refine ⟨{ g with Writer := (IOWriter.Write f.Writer (render cl p)).1 },
      (IOWriter.Write f.Writer (render cl p)).2.1, e, ?_⟩
    rw [write_allowed f g p cl hc, ← he]
  · intro g cl hc
    rw [write_allowed f g p cl hc]
    rfl
  · intro g cl hc hs
    rw [write_allowed f g p cl hc, hs]
    exact ⟨rfl, fun hne => length_lt_render cl p hne, fun he => by rw [he, render_Reset]⟩

/-- Witness of C14 (amended): the filter of the test over a closed sink returns the
sink's `(0, err)` for the allowed line `[WARN] foo` and `(len(p), nil)` for the suppressed
line `[DEBUG] baz`; over a buffer the count for `[WARN] foo` is 20, the length of the
rendered bytes, and not 11, and the count for `hello` is 6, its own length. -/
theorem write_error_iff_witness :
    (((∃ g n e, (newLevelFilter [ascii "DEBUG", ascii "WARN", ascii "ERROR"] (ascii "WARN")
          (ClosedWriter.mk 0)).Write (ascii "[WARN] foo\n") = some (g, (n, some e))) ↔
        ∃ g cl, (newLevelFilter [ascii "DEBUG", ascii "WARN", ascii "ERROR"] (ascii "WARN")
          (ClosedWriter.mk 0)).Check (ascii "[WARN] foo\n") = some (g, (cl, true)) ∧
          ∃ e, (IOWriter.Write (newLevelFilter [ascii "DEBUG", ascii "WARN", ascii "ERROR"]
            (ascii "WARN") (ClosedWriter.mk 0)).Writer
              (render cl (ascii "[WARN] foo\n"))).2.2 = some e) ∧
      (∀ g cl, (newLevelFilter [ascii "DEBUG", ascii "WARN", ascii "ERROR"] (ascii "WARN")
          (ClosedWriter.mk 0)).Check (ascii "[WARN] foo\n") = some (g, (cl, true)) →
        ((newLevelFilter [ascii "DEBUG", ascii "WARN", ascii "ERROR"] (ascii "WARN")
          (ClosedWriter.mk 0)).Write (ascii "[WARN] foo\n")).map Prod.snd
          = some (IOWriter.Write (newLevelFilter [ascii "DEBUG", ascii "WARN", ascii "ERROR"]
            (ascii "WARN") (ClosedWriter.mk 0)).Writer
              (render cl (ascii "[WARN] foo\n"))).2) ∧
      (∀ g cl, (newLevelFilter [ascii "DEBUG", ascii "WARN", ascii "ERROR"] (ascii "WARN")
          (ClosedWriter.mk 0)).Check (ascii "[WARN] foo\n") = some (g, (cl, true)) →
        (IOWriter.Write (newLevelFilter [ascii "DEBUG", ascii "WARN", ascii "ERROR"]
            (ascii "WARN") (ClosedWriter.mk 0)).Writer (render cl (ascii "[WARN] foo\n"))).2
          = (((render cl (ascii "[WARN] foo\n")).length : Int), none) →
        ((newLevelFilter [ascii "DEBUG", ascii "WARN", ascii "ERROR"] (ascii "WARN")
          (ClosedWriter.mk 0)).Write (ascii "[WARN] foo\n")).map Prod.snd
          = some (((render cl (ascii "[WARN] foo\n")).length : Int), none) ∧
        (cl ≠ Reset → ((ascii "[WARN] foo\n").length : Int)
          < ((render cl (ascii "[WARN] foo\n")).length : Int)) ∧
        (cl = Reset → render cl (ascii "[WARN] foo\n") = ascii "[WARN] foo\n"))) ∧
    ((newLevelFilter [ascii "DEBUG", ascii "WARN", ascii "ERROR"] (ascii "WARN")
        (ClosedWriter.mk 0)).Write (ascii "[WARN] foo\n")).map Prod.snd
      = some (0, some "io: read/write on closed pipe") ∧
    ((newLevelFilter [ascii "DEBUG", ascii "WARN", ascii "ERROR"] (ascii "WARN")
        (ClosedWriter.mk 0)).Write (ascii "[DEBUG] baz\n")).map Prod.snd = some (12, none) ∧
    (testFilter.Write (ascii "[WARN] foo\n")).map Prod.snd = some (20, none) ∧
    (ascii "[WARN] foo\n").length = 11 ∧
    (testFilter.Write (ascii "hello\n")).map Prod.snd = some (6, none) ∧
    (ascii "hello\n").length = 6 :=
  ⟨write_error_iff (newLevelFilter [ascii "DEBUG", ascii "WARN", ascii "ERROR"] (ascii "WARN")
      (ClosedWriter.mk 0)) (ascii "[WARN] foo\n"),
    by decide, by decide, by decide, by decide, by decide, by decide⟩

/-- C15: for an allowed line with the default colour `Reset`, `Write` hands the sink
exactly the input bytes, nothing before and nothing after them, and returns what the sink
returns; the same rendering gives `ESC[33m`, the text and `ESC[0m` for yellow. -/
theorem write_default_colour {σ : Type} [IOWriter σ] (f g : LevelFilter σ) (p : Bytes)
    (h : f.Check p = some (g, (Reset, true))) :
    f.Write p = some
      ({ g with Writer := (IOWriter.Write f.Writer p).1 }, (IOWriter.Write f.Writer p).2) ∧
    ∀ s, render FgYellow s = [27, 91, 51, 51, 109] ++ s ++ [27, 91, 48, 109] := by
  refine ⟨?_, fun s => ?_⟩
  · rw [write_allowed f g p Reset h, render_Reset]
  · have hy : FgYellow ≠ Reset := by decide
    have e : sgr FgYellow = [27, 91, 51, 51, 109] := by decide
    simp only [render, if_neg hy, sgr_Reset, e]

/-- Witness of C15: on the test filter the line `hello` leaves `hello` alone in the
buffer; the yellow line `[WARN] foo` leaves `ESC[33m [WARN] foo ESC[0m`. -/
theorem write_default_colour_witness :
    testFilter.Check (ascii "hello\n") = some (testFilter.onceDoInit, (Reset, true)) ∧
    (testFilter.Write (ascii "hello\n") = some
      ({ testFilter.onceDoInit with Writer :=
          (IOWriter.Write testFilter.Writer (ascii "hello\n")).1 },
        (IOWriter.Write testFilter.Writer (ascii "hello\n")).2) ∧
      ∀ s, render FgYellow s = [27, 91, 51, 51, 109] ++ s ++ [27, 91, 48, 109]) ∧
    (testFilter.run [Call.write (ascii "hello\n")]).map (fun g => g.Writer.data)
      = some (ascii "hello\n") ∧
    (testFilter.run [Call.write (ascii "[WARN] foo\n")]).map (fun g => g.Writer.data)
      = some ([27] ++ ascii "[33m[WARN] foo\n" ++ [27] ++ ascii "[0m") :=
  ⟨by rfl, write_default_colour testFilter testFilter.onceDoInit (ascii "hello\n") (by rfl),
    by decide, by decide⟩

theorem check_suppressed_iff_mem {σ : Type} (f : LevelFilter σ) (line : Bytes)
    (level : LogLevel) (h : checkLevel line = some level) :
    (f.Check line).map (fun r => r.2.2) = some false ↔ level ∈ f.onceDoInit.badLevels := by
  have hs := congrArg (Option.map (fun r : Attribute × Bool => r.2)) (check_eq f line level h)
  rw [Option.map_map] at hs
  have e : ((fun r : Attribute × Bool => r.2) ∘ Prod.snd)
      = fun r : LevelFilter σ × (Attribute × Bool) => r.2.2 := rfl
  rw [e] at hs
  rw [hs]
  by_cases hbad : level ∈ f.onceDoInit.badLevels
  · rw [if_pos hbad]
    exact iff_of_true rfl hbad
  · rw [if_neg hbad]
    refine iff_of_false ?_ hbad
    cases colorLoop f.Levels level f.Levels 0 <;> simp

theorem mem_badLevels_new_iff {σ : Type} (Levels : List LogLevel) (MinLevel : LogLevel)
    (w : σ) (x : LogLevel) :
    x ∈ (newLevelFilter Levels MinLevel w).onceDoInit.badLevels ↔
      ∃ j, j < firstIndex Levels MinLevel ∧ Levels[j]? = some x := by
  rw [badLevels_new, mem_initLoop, mem_takeWhile_ne_iff]
  simp

/-- C16: `Check` returns `allowed = false` exactly when the tag of the line, the empty
string for a line without a tag, equals an entry of `Levels` at an index below the index
of the first occurrence of `MinLevel`, which is `len(Levels)` when `MinLevel` does not
occur; repeated entries are included. -/
theorem check_suppressed_iff {σ : Type} (Levels : List LogLevel) (MinLevel : LogLevel)
    (w : σ) (line tag : Bytes)
    (htag : (∃ pre post, line = pre ++ lbracket :: (tag ++ rbracket :: post) ∧
        lbracket ∉ pre ∧ rbracket ∉ tag) ∨
      ((lbracket ∉ line ∨
        ∃ pre rest, line = pre ++ lbracket :: rest ∧ lbracket ∉ pre ∧ rbracket ∉ rest) ∧
        tag = [])) :
    ((newLevelFilter Levels MinLevel w).Check line).map (fun r => r.2.2) = some false ↔
      ∃ j, j < firstIndex Levels MinLevel ∧ Levels[j]? = some tag := by
  have hl : checkLevel line = some tag := by
    rcases htag with ⟨pre, post, rfl, hpre, ht⟩ | ⟨hno, rfl⟩
    · exact checkLevel_tagged pre tag post hpre ht
    · exact checkLevel_untagged line hno
  rw [check_suppressed_iff_mem _ line tag hl, mem_badLevels_new_iff]

/-- Witness of C16: with the levels A, B, A and the threshold B the line `[A]` is
suppressed, the entry at index 0 is A and the first B is at index 1, and the line `[B]`
is not suppressed. -/
theorem check_suppressed_iff_witness :
    ((∃ pre post, ascii "[A] x\n" = pre ++ lbracket :: (ascii "A" ++ rbracket :: post) ∧
        lbracket ∉ pre ∧ rbracket ∉ ascii "A") ∨
      ((lbracket ∉ ascii "[A] x\n" ∨
        ∃ pre rest, ascii "[A] x\n" = pre ++ lbracket :: rest ∧ lbracket ∉ pre ∧
          rbracket ∉ rest) ∧ ascii "A" = [])) ∧
    (((newLevelFilter [ascii "A", ascii "B", ascii "A"] (ascii "B") (Buffer.mk [])).Check
        (ascii "[A] x\n")).map (fun r => r.2.2) = some false ↔
      ∃ j, j < firstIndex [ascii "A", ascii "B", ascii "A"] (ascii "B") ∧
        [ascii "A", ascii "B", ascii "A"][j]? = some (ascii "A")) ∧
    ((newLevelFilter [ascii "A", ascii "B", ascii "A"] (ascii "B") (Buffer.mk [])).Check
        (ascii "[A] x\n")).map (fun r => r.2.2) = some false ∧
    firstIndex [ascii "A", ascii "B", ascii "A"] (ascii "B") = 1 ∧
    ((newLevelFilter [ascii "A", ascii "B", ascii "A"] (ascii "B") (Buffer.mk [])).Check
        (ascii "[B] x\n")).map (fun r => r.2.2) = some true :=
  ⟨Or.inl ⟨[], ascii " x\n", by decide, by decide, by decide⟩,
    check_suppressed_iff [ascii "A", ascii "B", ascii "A"] (ascii "B") (Buffer.mk [])
      (ascii "[A] x\n") (ascii "A")
      (Or.inl ⟨[], ascii " x\n", by decide, by decide, by decide⟩),
    by decide, by decide, by decide⟩

/-- C18: when the first occurrence of `m1` in `Levels` is at or before the first
occurrence of `m2`, every line suppressed with the threshold `m1` is suppressed with the
threshold `m2`. -/
theorem raise_threshold_suppresses_more {σ : Type} (Levels : List LogLevel)
    (m1 m2 : LogLevel) (w : σ) (line : Bytes)
    (hle : firstIndex Levels m1 ≤ firstIndex Levels m2)
    (hs : ((newLevelFilter Levels m1 w).Check line).map (fun r => r.2.2) = some false) :
    ((newLevelFilter Levels m2 w).Check line).map (fun r => r.2.2) = some false := by
  obtain ⟨level, hl⟩ := checkLevel_total line
  rw [check_suppressed_iff_mem _ line level hl, mem_badLevels_new_iff] at hs ⊢
  obtain ⟨j, hj, hx⟩ := hs
  exact ⟨j, by omega, hx⟩

/-- Witness of C18: with levels DEBUG, WARN, ERROR the line `[DEBUG] baz`, suppressed
with the threshold WARN, is suppressed with the threshold ERROR and with the threshold
INFO, which is no level. -/
theorem raise_threshold_suppresses_more_witness :
    firstIndex [ascii "DEBUG", ascii "WARN", ascii "ERROR"] (ascii "WARN") ≤
      firstIndex [ascii "DEBUG", ascii "WARN", ascii "ERROR"] (ascii "ERROR") ∧
    ((newLevelFilter [ascii "DEBUG", ascii "WARN", ascii "ERROR"] (ascii "WARN")
        (Buffer.mk [])).Check (ascii "[DEBUG] baz\n")).map (fun r => r.2.2) = some false ∧
    ((newLevelFilter [ascii "DEBUG", ascii "WARN", ascii "ERROR"] (ascii "ERROR")
        (Buffer.mk [])).Check (ascii "[DEBUG] baz\n")).map (fun r => r.2.2) = some false ∧
    ((newLevelFilter [ascii "DEBUG", ascii "WARN", ascii "ERROR"] (ascii "INFO")
        (Buffer.mk [])).Check (ascii "[DEBUG] baz\n")).map (fun r => r.2.2) = some false :=
  ⟨by decide, by decide,
    raise_threshold_suppresses_more [ascii "DEBUG", ascii "WARN", ascii "ERROR"]
      (ascii "WARN") (ascii "ERROR") (Buffer.mk []) (ascii "[DEBUG] baz\n")
      (by decide) (by decide),
    by decide⟩

/-- C19: a line from which no tag can be extracted has the outcome of the line `[]`,
whose tag is the empty string. -/
theorem check_no_tag_as_empty_tag {σ : Type} (f : LevelFilter σ) (line : Bytes)
    (hline : lbracket ∉ line ∨
      ∃ pre rest, line = pre ++ lbracket :: rest ∧ lbracket ∉ pre ∧ rbracket ∉ rest) :
    (f.Check line).map Prod.snd = (f.Check [lbracket, rbracket]).map Prod.snd := by
  have h1 := checkLevel_untagged line hline
  have h2 : checkLevel [lbracket, rbracket] = some [] := by decide
  rw [check_eq f line [] h1, check_eq f _ [] h2]

/-- Witness of C19: with the levels `""`, WARN and the threshold WARN the lines `hello`
and `[]` are both suppressed; with the threshold `""` both are allowed in yellow; on the
test filter, where the empty string is no level, both are allowed with the default
colour. -/
theorem check_no_tag_as_empty_tag_witness :
    (lbracket ∉ ascii "hello\n" ∨
      ∃ pre rest, ascii "hello\n" = pre ++ lbracket :: rest ∧ lbracket ∉ pre ∧
        rbracket ∉ rest) ∧
    ((newLevelFilter [[], ascii "WARN"] (ascii "WARN") (Buffer.mk [])).Check
        (ascii "hello\n")).map Prod.snd
      = ((newLevelFilter [[], ascii "WARN"] (ascii "WARN") (Buffer.mk [])).Check
        [lbracket, rbracket]).map Prod.snd ∧
    ((newLevelFilter [[], ascii "WARN"] (ascii "WARN") (Buffer.mk [])).Check
        (ascii "hello\n")).map Prod.snd = some (FgBlack, false) ∧
    ((newLevelFilter [[], ascii "WARN"] [] (Buffer.mk [])).Check
        (ascii "hello\n")).map Prod.snd = some (FgYellow, true) ∧
    ((newLevelFilter [[], ascii "WARN"] [] (Buffer.mk [])).Check
        [lbracket, rbracket]).map Prod.snd = some (FgYellow, true) ∧
    (testFilter.Check (ascii "hello\n")).map Prod.snd = some (Reset, true) ∧
    (testFilter.Check [lbracket, rbracket]).map Prod.snd = some (Reset, true) :=
  ⟨Or.inl (by decide),
    check_no_tag_as_empty_tag (newLevelFilter [[], ascii "WARN"] (ascii "WARN") (Buffer.mk []))
      (ascii "hello\n") (Or.inl (by decide)),
    by decide, by decide, by decide, by decide, by decide⟩

theorem onceDoInit_badLevels_of_inv {σ : Type} (f : LevelFilter σ)
    (h : f.once = true → f.badLevels = initLoop f.MinLevel f.Levels []) :
    f.onceDoInit.badLevels = initLoop f.MinLevel f.Levels [] := by
  unfold LevelFilter.onceDoInit LevelFilter.init
  by_cases ho : f.once = true
  · simp [ho, h ho]
  · simp [ho]

theorem write_state {σ : Type} [IOWriter σ] (f g : LevelFilter σ) (p : Bytes)
    (r : Int × Option Error) (h : f.Write p = some (g, r)) :
    ∃ w, g = { f.onceDoInit with Writer := w } := by
  cases hc : f.Check p with
  | none => simp [LevelFilter.Write, hc] at h
  | some res =>
    obtain ⟨k, cl, ok⟩ := res
    have hk := check_writer f k p _ hc
    cases ok with
    | false =>
      rw [write_not_allowed f k p cl hc] at h
      simp only [Option.some.injEq, Prod.mk.injEq] at h
      exact ⟨f.onceDoInit.Writer, by rw [← h.1, hk]⟩
    | true =>
      rw [write_allowed f k p cl hc] at h
      simp only [Option.some.injEq, Prod.mk.injEq] at h
      exact ⟨(IOWriter.Write f.Writer (render cl p)).1, by rw [← h.1, hk]⟩

theorem call_inv {σ : Type} [IOWriter σ] (f g : LevelFilter σ) (c : Call)
    (hinv : f.once = true → f.badLevels = initLoop f.MinLevel f.Levels [])
    (h : f.call c = some g) :
    (g.once = true → g.badLevels = initLoop g.MinLevel g.Levels []) ∧
      g.Levels = f.Levels ∧ g.MinLevel = currentMinLevel f.MinLevel [c] := by
  have hb := onceDoInit_badLevels_of_inv f hinv
  cases c with
  | check line =>
    simp only [LevelFilter.call, Option.map_eq_some'] at h
    obtain ⟨⟨k, r⟩, hk, rfl⟩ := h
    rw [check_writer f k line r hk]
    refine ⟨fun _ => ?_, onceDoInit_Levels f, onceDoInit_MinLevel f⟩
    rw [hb, onceDoInit_Levels, onceDoInit_MinLevel]
  | write p =>
    simp only [LevelFilter.call, Option.map_eq_some'] at h
    obtain ⟨⟨k, r⟩, hk, rfl⟩ := h
    obtain ⟨w, e⟩ := write_state f k p r hk
    rw [e]
    refine ⟨fun _ => ?_, onceDoInit_Levels f, onceDoInit_MinLevel f⟩
    show f.onceDoInit.badLevels = initLoop f.onceDoInit.MinLevel f.onceDoInit.Levels []
    rw [hb, onceDoInit_Levels, onceDoInit_MinLevel]
  | setMinLevel m =>
    simp only [LevelFilter.call, Option.some.injEq] at h
    rw [← h]
    exact ⟨fun _ => rfl, rfl, rfl⟩

theorem currentMinLevel_cons (m : LogLevel) (c : Call) (cs : List Call) :
    currentMinLevel m (c :: cs) = currentMinLevel (currentMinLevel m [c]) cs := by
  cases c <;> rfl

theorem run_inv {σ : Type} [IOWriter σ] (f g : LevelFilter σ) (cs : List Call)
    (hinv : f.once = true → f.badLevels = initLoop f.MinLevel f.Levels [])
    (h : f.run cs = some g) :
    (g.once = true → g.badLevels = initLoop g.MinLevel g.Levels []) ∧
      g.Levels = f.Levels ∧ g.MinLevel = currentMinLevel f.MinLevel cs := by
  induction cs generalizing f with
  | nil =>
    simp only [LevelFilter.run, Option.some.injEq] at h
    rw [← h]
    exact ⟨hinv, rfl, rfl⟩
  | cons c t ih =>
    simp only [LevelFilter.run] at h
    cases hc : f.call c with
    | none => rw [hc] at h; exact absurd h (by simp)
    | some k =>
      rw [hc] at h
      obtain ⟨hk1, hk2, hk3⟩ := call_inv f k c hinv hc
      obtain ⟨hg1, hg2, hg3⟩ := ih k hk1 h
      exact ⟨hg1, by rw [hg2, hk2], by rw [hg3, hk3, ← currentMinLevel_cons]⟩

/-- C17: in every state that calls of `Check`, `Write` and `SetMinLevel` lead to from a
constructed filter, `Levels` is the list of the construction, `MinLevel` is the argument
of the last `SetMinLevel`, the set that `Check` consults holds exactly the entries of
`Levels` before the first occurrence of that `MinLevel`, the set stored by a `SetMinLevel`
holds exactly the entries before the first occurrence of its argument, and the
initialization of a later `Check` keeps that set. -/
theorem suppression_set_invariant {σ : Type} [IOWriter σ] (Levels : List LogLevel)
    (m0 : LogLevel) (w : σ) (cs : List Call) (f : LevelFilter σ)
    (hreach : (newLevelFilter Levels m0 w).run cs = some f) :
    f.Levels = Levels ∧ f.MinLevel = currentMinLevel m0 cs ∧
    (∀ x, x ∈ f.onceDoInit.badLevels ↔
      ∃ j, j < firstIndex Levels (currentMinLevel m0 cs) ∧ Levels[j]? = some x) ∧
    (∀ m x, x ∈ (f.SetMinLevel m).badLevels ↔
      ∃ j, j < firstIndex Levels m ∧ Levels[j]? = some x) ∧
    (∀ m, (f.SetMinLevel m).onceDoInit.badLevels = (f.SetMinLevel m).badLevels) := by
  obtain ⟨h1, h2, h3⟩ := run_inv (newLevelFilter Levels m0 w) f cs
    (fun h => absurd h (by simp [newLevelFilter])) hreach
  have h2' : f.Levels = Levels := h2
  have h3' : f.MinLevel = currentMinLevel m0 cs := h3
  refine ⟨h2', h3', fun x => ?_, fun m x => ?_, fun m => ?_⟩
  · rw [onceDoInit_badLevels_of_inv f h1, h2', h3', mem_initLoop, mem_takeWhile_ne_iff]
    simp
  · show x ∈ initLoop m f.Levels [] ↔ _
    rw [h2', mem_initLoop, mem_takeWhile_ne_iff]
    simp
  · rw [setMinLevel_badLevels]
    rfl

/-- Witness of C17: on the filter of `TestLevelFilter_SetMinLevel`, threshold ERROR, the
calls `SetMinLevel(WARN)`, `Check("[WARN] foo")` and `Write("[DEBUG] baz")` lead to a
state whose stored set is DEBUG alone, the set for WARN and not the one for ERROR. -/
theorem suppression_set_invariant_witness :
    testFilterError.run [Call.setMinLevel (ascii "WARN"), Call.check (ascii "[WARN] foo\n"),
        Call.write (ascii "[DEBUG] baz\n")]
      = some { Levels := [ascii "DEBUG", ascii "WARN", ascii "ERROR"], MinLevel := ascii "WARN",
               Writer := Buffer.mk [], badLevels := [ascii "DEBUG"], once := true } ∧
    currentMinLevel (ascii "ERROR") [Call.setMinLevel (ascii "WARN"),
        Call.check (ascii "[WARN] foo\n"), Call.write (ascii "[DEBUG] baz\n")] = ascii "WARN" ∧
    firstIndex [ascii "DEBUG", ascii "WARN", ascii "ERROR"] (ascii "WARN") = 1 ∧
    ((LevelFilter.mk [ascii "DEBUG", ascii "WARN", ascii "ERROR"] (ascii "WARN")
        (Buffer.mk []) [ascii "DEBUG"] true).Levels = [ascii "DEBUG", ascii "WARN", ascii "ERROR"] ∧
      (LevelFilter.mk [ascii "DEBUG", ascii "WARN", ascii "ERROR"] (ascii "WARN")
        (Buffer.mk []) [ascii "DEBUG"] true).MinLevel
        = currentMinLevel (ascii "ERROR") [Call.setMinLevel (ascii "WARN"),
          Call.check (ascii "[WARN] foo\n"), Call.write (ascii "[DEBUG] baz\n")] ∧
      (∀ x, x ∈ (LevelFilter.mk [ascii "DEBUG", ascii "WARN", ascii "ERROR"] (ascii "WARN")
          (Buffer.mk []) [ascii "DEBUG"] true).onceDoInit.badLevels ↔
        ∃ j, j < firstIndex [ascii "DEBUG", ascii "WARN", ascii "ERROR"]
            (currentMinLevel (ascii "ERROR") [Call.setMinLevel (ascii "WARN"),
              Call.check (ascii "[WARN] foo\n"), Call.write (ascii "[DEBUG] baz\n")]) ∧
          [ascii "DEBUG", ascii "WARN", ascii "ERROR"][j]? = some x) ∧
      (∀ m x, x ∈ (LevelFilter.SetMinLevel (LevelFilter.mk
          [ascii "DEBUG", ascii "WARN", ascii "ERROR"] (ascii "WARN")
          (Buffer.mk []) [ascii "DEBUG"] true) m).badLevels ↔
        ∃ j, j < firstIndex [ascii "DEBUG", ascii "WARN", ascii "ERROR"] m ∧
          [ascii "DEBUG", ascii "WARN", ascii "ERROR"][j]? = some x) ∧
      (∀ m, (LevelFilter.SetMinLevel (LevelFilter.mk
          [ascii "DEBUG", ascii "WARN", ascii "ERROR"] (ascii "WARN")
          (Buffer.mk []) [ascii "DEBUG"] true) m).onceDoInit.badLevels
        = (LevelFilter.SetMinLevel (LevelFilter.mk
          [ascii "DEBUG", ascii "WARN", ascii "ERROR"] (ascii "WARN")
          (Buffer.mk []) [ascii "DEBUG"] true) m).badLevels)) :=
  ⟨by rfl, by decide, by decide,
    suppression_set_invariant [ascii "DEBUG", ascii "WARN", ascii "ERROR"] (ascii "ERROR")
      (Buffer.mk []) [Call.setMinLevel (ascii "WARN"), Call.check (ascii "[WARN] foo\n"),
        Call.write (ascii "[DEBUG] baz\n")] _ (by rfl)⟩

end Logutils
